import Mathlib

/-!
Verification of the AGVD variant-query client (agvd.py).

The development shallowly embeds the core of `agvd.py`:
identifier normalization (`standardize_variant_id`), batch planning and
result merging (`process_table` / `process_batch`), result lookup
(`get_result_info`), the run summary (`generate_summary`), and the status
handling of `submit_query`.  Strings are modelled as `List Char`; the
Python regular expressions of `standardize_variant_id` are modelled by a
backtracking matcher specialized to their common shape
`(group)+ sep (group)+ sep (group)+ sep (group)+`.
-/

abbrev Str := List Char

/-- Python whitespace, as stripped by `str.strip()` (ASCII part). -/
def pySpace (c : Char) : Bool :=
  c == ' ' || c == '\t' || c == '\n' || c == '\r' || c == '\x0b' || c == '\x0c'

/-- Model of Python `str.strip()`: drop whitespace from both ends. -/
def pyStrip (l : Str) : Str :=
  ((l.dropWhile pySpace).reverse.dropWhile pySpace).reverse

/-- Model of Python `str.lower()` (ASCII). -/
def pyLower (l : Str) : Str := l.map Char.toLower

/-- Model of Python `str.upper()` (ASCII). -/
def pyUpper (l : Str) : Str := l.map Char.toUpper

/-- Model of Python `str.replace("chr", "")`: remove every (non-overlapping,
left-to-right) occurrence of `chr`. -/
def removeChr : Str → Str
  | 'c' :: 'h' :: 'r' :: rest => removeChr rest
  | c :: rest => c :: removeChr rest
  | [] => []

/-- The characters of the class `\w` (ASCII part): letters, digits, underscore. -/
def wordChars : Str :=
  "abcdefghijklmnopqrstuvwxyzABCDEFGHIJKLMNOPQRSTUVWXYZ0123456789_".toList

/-- Character class `\w` of the patterns (ASCII part). -/
def wchar (c : Char) : Bool := wordChars.contains c

/-- The characters of the class `\d` (ASCII part). -/
def digitChars : Str := "0123456789".toList

/-- Character class `\d` of the patterns (ASCII part). -/
def dchar (c : Char) : Bool := digitChars.contains c

/-- The separator class `[_|:|\-|>|\|]` of the first pattern,
i.e. the character set with underscore, pipe, colon, hyphen, greater-than. -/
def sepAny (c : Char) : Bool := c == '_' || c == '|' || c == ':' || c == '-' || c == '>'

/-- The literal colon separator of the second and third patterns. -/
def sepColon (c : Char) : Bool := c == ':'

/-- The literal `>` separator between ref and alt in the third pattern. -/
def sepGt (c : Char) : Bool := c == '>'

/-- All splits of `l` into a nonempty prefix `l.take k` (for `1 ≤ k ≤ n`)
and the rest, ordered with the longest prefix first; the candidate order a
greedy `+` atom explores under backtracking. -/
def splitsDesc (l : Str) : ℕ → List (Str × Str)
  | 0 => []
  | k + 1 => (l.take (k + 1), l.drop (k + 1)) :: splitsDesc l k

/-- Candidates for a greedy `(cls)+` atom at the head of `l`:
nonempty prefixes of the maximal run of `cls` characters, longest first. -/
def plusSplits (cls : Char → Bool) (l : Str) : List (Str × Str) :=
  splitsDesc l (l.takeWhile cls).length

/-- First success of `f` over a candidate list (the backtracking order). -/
def firstSome (f : α → Option β) : List α → Option β
  | [] => none
  | x :: xs =>
    match f x with
    | some b => some b
    | none => firstSome f xs

/-- Match a single separator character from class `s`. -/
def matchSep (s : Char → Bool) : Str → Option Str
  | [] => none
  | c :: rest => if s c then some rest else none

/-- Innermost level of the pattern: the greedy `(?P<alt>\w+)` atom.  The
pattern is not end-anchored (`re.match`), so trailing input may remain. -/
def altLevel (acc : Str × Str × Str) (l : Str) : Option (Str × Str × Str × Str) :=
  firstSome (fun pa => some (acc.1, acc.2.1, acc.2.2, pa.1)) (plusSplits wchar l)

/-- Level of the pattern matching `(?P<ref>\w+) sep3 (?P<alt>\w+)`. -/
def refLevel (s3 : Char → Bool) (acc : Str × Str) (l : Str) :
    Option (Str × Str × Str × Str) :=
  firstSome (fun pr => (matchSep s3 pr.2).bind (altLevel (acc.1, acc.2, pr.1)))
    (plusSplits wchar l)

/-- Level of the pattern matching `(?P<pos>\d+) sep2 (?P<ref>\w+) sep3 (?P<alt>\w+)`. -/
def posLevel (s2 s3 : Char → Bool) (accChr : Str) (l : Str) :
    Option (Str × Str × Str × Str) :=
  firstSome (fun pp => (matchSep s2 pp.2).bind (refLevel s3 (accChr, pp.1)))
    (plusSplits dchar l)

/-- Backtracking matcher for the common shape of the three patterns of
`standardize_variant_id`:
`(?P<chr>\w+) s1 (?P<pos>\d+) s2 (?P<ref>\w+) s3 (?P<alt>\w+)`,
anchored at the start only (Python `re.match`).  Returns the four captured
groups of the first match found in backtracking order. -/
def match4 (s1 s2 s3 : Char → Bool) (l : Str) : Option (Str × Str × Str × Str) :=
  firstSome (fun pc => (matchSep s1 pc.2).bind (posLevel s2 s3 pc.1))
    (plusSplits wchar l)

/-- The three patterns, tried in order; the first match wins. -/
def tryPatterns (l : Str) : Option (Str × Str × Str × Str) :=
  match match4 sepAny sepAny sepAny l with
  | some g => some g
  | none =>
    match match4 sepColon sepColon sepColon l with
    | some g => some g
    | none => match4 sepColon sepColon sepGt l

/-- The two kinds of normalized identifier. -/
inductive IdKind where
  | rsID
  | variantID
deriving DecidableEq, Repr

/-- Is the (already stripped) token an rsID, i.e. does it match `^rs\d+$`
case-insensitively: `r`/`R`, `s`/`S`, then one or more digits to the end. -/
def isRsId : Str → Bool
  | r :: s :: rest =>
    (r == 'r' || r == 'R') && (s == 's' || s == 'S') &&
      (!rest.isEmpty && rest.all dchar)
  | _ => false

def unrecognizedMsg (t : Str) : Str :=
  "Unrecognized variant ID format: ".toList ++ t

/-- Model of `standardize_variant_id` (src/agvd.py lines 47-65): strip
whitespace; if the token matches `^rs\d+$` (case-insensitive) return it
unchanged with kind `rsID`; otherwise lower-case it, remove every `chr`
occurrence, try the three delimiter patterns in order and return the
upper-cased `CHR_POS_REF_ALT` with kind `variantID`; raise `ValueError`
(modelled as `Except.error`) when none match. -/
def standardize_variant_id (raw : Str) : Except Str (Str × IdKind) :=
  let s := pyStrip raw
  if isRsId s then .ok (s, .rsID)
  else
    let t := removeChr (pyLower s)
    match tryPatterns t with
    | some (c, p, r, a) =>
      .ok (pyUpper (c ++ '_' :: p ++ '_' :: r ++ '_' :: a), .variantID)
    | none => .error (unrecognizedMsg t)

deriving instance DecidableEq for Except

/-! ## Remote records and result lookup -/

/-- A result record returned by the remote service. `Option` fields model
JSON fields that may be absent (Python `dict.get` returning `None`). -/
structure ResultRec where
  variantID : Option Str
  rsID : Option Str
  mafThreshold : Option ℚ
  agvdThresholdStatus : Option Str
  usedThreshold : Option ℚ
  clusters : List (Str × Option ℚ)
deriving DecidableEq

def unknownStatus : Str := "UNKNOWN".toList
def noMatchStatus : Str := "NO MATCH".toList
def errorStatus : Str := "ERROR".toList
def invalidStatus : Str := "INVALID".toList

/-- The per-variant information extracted by `get_result_info`. -/
structure VariantInfo where
  mafThreshold : Option ℚ
  status : Str
  usedThreshold : Option ℚ
  clusters : List (Str × Option ℚ)
deriving DecidableEq

/-- The record-matching loop of `get_result_info` (src/agvd.py lines 100-101):
the first record whose `variantID` or `rsID` equals the identifier. -/
def findRec (variant_id : Str) (results : List ResultRec) : Option ResultRec :=
  results.find? (fun r => r.variantID == some variant_id || r.rsID == some variant_id)

/-- Model of `get_result_info` (src/agvd.py lines 99-108). -/
def get_result_info (variant_id : Str) (results : List ResultRec) : VariantInfo :=
  match findRec variant_id results with
  | some r => ⟨r.mafThreshold, r.agvdThresholdStatus.getD unknownStatus, r.usedThreshold, r.clusters⟩
  | none => ⟨none, noMatchStatus, none, []⟩

/-! ## Summary and query client status handling -/

/-- The run summary produced by `generate_summary`. -/
structure Summary where
  total : ℕ
  successful : ℕ
  failed : ℕ
  success_rate : ℚ
deriving DecidableEq

/-- Model of `generate_summary` (src/agvd.py lines 111-117); Python float
division is modelled by exact rational division. -/
def generate_summary (total success fail : ℕ) : Summary :=
  ⟨total, success, fail, if 0 < total then (success : ℚ) / (total : ℚ) else 0⟩

def unknownErrorMsg : Str := "Unknown error".toList

/-- Modelled from the spec: the fixed status-code lookup table
`HTTP_STATUS_CODES` lives in the repository's `exceptions` module, which is
not under src/; the spec says only that it maps status codes to
human-readable messages and that unmapped codes yield "Unknown error", so
the table is kept as a parameter. -/
def lookupStatusMsg (table : List (ℕ × Str)) (code : ℕ) : Str :=
  (table.lookup code).getD unknownErrorMsg

/-- Model of the response handling of `submit_query` (src/agvd.py lines
93-96): given the HTTP status code and the parsed body, return the result
list when the status is exactly 200, otherwise raise an `AgvdException`
with the message from the lookup table (or "Unknown error"). -/
def submit_query (table : List (ℕ × Str)) (status : ℕ) (body : List ResultRec) :
    Except Str (List ResultRec) :=
  if status = 200 then .ok body else .error (lookupStatusMsg table status)

/-! ## The annotated table -/

/-- One output cell: never written, written `None` (pandas `NaN`), or a value. -/
inductive Cell (α : Type) where
  | empty
  | null
  | val (a : α)
deriving DecidableEq

/-- The annotation columns of one row of the table. -/
structure Row where
  threshold : Cell ℚ
  agvdcutoff : Cell Str
  africanMaf : Cell ℚ
  clusters : List (Str × Cell ℚ)
deriving DecidableEq

def emptyRow : Row := ⟨.empty, .empty, .empty, []⟩

/-- The data frame, indexed by row number. -/
abbrev Df := ℕ → Row

def dfEmpty : Df := fun _ => emptyRow

def setRow (df : Df) (i : ℕ) (r : Row) : Df :=
  fun j => if j = i then r else df j

def cellOfOpt : Option ℚ → Cell ℚ
  | none => .null
  | some q => .val q

/-- Write one named cluster-frequency column (`<name>_MAF`) of a row. -/
def setCluster (cs : List (Str × Cell ℚ)) (name : Str) (v : Cell ℚ) :
    List (Str × Cell ℚ) :=
  if cs.any (fun p => p.1 == name) then
    cs.map (fun p => if p.1 == name then (p.1, v) else p)
  else cs ++ [(name, v)]

/-- The column writes performed for one row on the success path of
`process_batch` (src/agvd.py lines 177-185). -/
def writeRow (info : VariantInfo) (row : Row) : Row :=
  { threshold := cellOfOpt info.usedThreshold
    agvdcutoff := .val info.status
    africanMaf := cellOfOpt info.mafThreshold
    clusters := info.clusters.foldl (fun cs nc => setCluster cs nc.1 (cellOfOpt nc.2)) row.clusters }

/-- The column writes performed for one row on the error path of
`process_batch` (src/agvd.py lines 189-193): `THRESHOLD` is the requested
threshold, `AGVDCUTOFF` is `ERROR`, `African_MAF` is `None`. -/
def errorRow (thr : ℚ) (row : Row) : Row :=
  { row with threshold := .val thr, agvdcutoff := .val errorStatus, africanMaf := .null }

/-! ## Grouping and batch planning (process_table) -/

/-- The accumulated grouping state of the normalization loop of
`process_table` (src/agvd.py lines 159-167): per-kind identifier lists and
row maps, plus the rows marked `INVALID`. -/
structure Grouped where
  vIds : List Str
  vRows : List ℕ
  rIds : List Str
  rRows : List ℕ
  invalid : List ℕ
deriving DecidableEq

/-- The normalization loop of `process_table` starting at row index `i`:
each identifier is standardized and appended to its kind's lists together
with its row index; failures are collected as invalid rows. -/
def groupIdsFrom (i : ℕ) : List Str → Grouped
  | [] => ⟨[], [], [], [], []⟩
  | t :: ts =>
    let g := groupIdsFrom (i + 1) ts
    match standardize_variant_id t with
    | .ok (s, .variantID) => ⟨s :: g.vIds, i :: g.vRows, g.rIds, g.rRows, g.invalid⟩
    | .ok (s, .rsID) => ⟨g.vIds, g.vRows, s :: g.rIds, i :: g.rRows, g.invalid⟩
    | .error _ => ⟨g.vIds, g.vRows, g.rIds, g.rRows, i :: g.invalid⟩

def groupIds (ids : List Str) : Grouped := groupIdsFrom 0 ids

/-- Mark the rows that failed normalization: `AGVDCUTOFF = INVALID`
(src/agvd.py line 167). -/
def markInvalid (rows : List ℕ) (df : Df) : Df :=
  rows.foldl (fun d i => setRow d i { d i with agvdcutoff := .val invalidStatus }) df

/-- One planned batch: parallel slices of a kind's identifier list and row
map (src/agvd.py lines 199-204). -/
structure QueryUnit where
  ids : List Str
  rows : List ℕ
  kind : IdKind
deriving DecidableEq

/-- The slicing loop `for i in range(0, len(ids_batch), BATCH)` of
`process_table` for one kind, unrolled at most `fuel` times: while the
identifier list is nonempty, emit the parallel slices of the first `b`
elements and continue with the rest.  Each step with `1 ≤ b` removes at
least one element, so `fuel = ids.length` runs the loop to completion. -/
def sliceIter (b : ℕ) : ℕ → List Str → List ℕ → List (List Str × List ℕ)
  | 0, _, _ => []
  | fuel + 1, ids, rows =>
    if ids = [] then []
    else (ids.take b, rows.take b) :: sliceIter b fuel (ids.drop b) (rows.drop b)

/-- The slicing loop of `process_table` for one kind, for a positive batch
size `b`: consecutive parallel slices of at most `b` elements.  (For
`b = 0` Python's `range` raises before slicing; see `planUnits`.) -/
def sliceBatches (b : ℕ) (ids : List Str) (rows : List ℕ) : List (List Str × List ℕ) :=
  if b = 0 then [] else sliceIter b ids.length ids rows

def rangeZeroStepMsg : Str := "range() arg 3 must not be zero".toList

/-- The plan for a positive batch size: the variantID batches (the dict
`id_batches` lists `variantID` first) followed by the rsID batches. -/
def thePlan (b : ℕ) (g : Grouped) : List QueryUnit :=
  (sliceBatches b g.vIds g.vRows).map (fun x => ⟨x.1, x.2, .variantID⟩) ++
  (sliceBatches b g.rIds g.rRows).map (fun x => ⟨x.1, x.2, .rsID⟩)

/-- The batch-planning step of `process_table` (src/agvd.py lines 196-204)
with Python `range` semantics for the configured batch size: a zero step
raises `ValueError` at slicing time, a negative step yields an empty range
(no batches at all), and a positive step produces consecutive slices. -/
def planUnits (B : ℤ) (g : Grouped) : Except Str (List QueryUnit) :=
  if B = 0 then .error rangeZeroStepMsg
  else if B < 0 then .ok []
  else .ok (thePlan B.toNat g)

/-! ## Batch processing and concurrent dispatch -/

/-- The success path of `process_batch`: scatter each identifier's result
info onto its recorded row; each row counts one success. -/
def applySuccess (results : List ResultRec) (pairs : List (Str × ℕ)) (df : Df) : Df :=
  pairs.foldl (fun d pr => setRow d pr.2 (writeRow (get_result_info pr.1 results) (d pr.2))) df

/-- The error path of `process_batch`: mark every row of the batch. -/
def markErrors (thr : ℚ) (rows : List ℕ) (df : Df) : Df :=
  rows.foldl (fun d i => setRow d i (errorRow thr (d i))) df

/-- Model of `process_batch` (src/agvd.py lines 171-194).  The outcome of
the remote `submit` call is a parameter: `.ok results` for a parsed
response, `.error` when it raises.  Returns the updated frame and the
local success and failure counts.  A dry run short-circuits with no row
mutation and zero counts. -/
def process_batch (dry : Bool) (thr : ℚ) (u : QueryUnit)
    (outcome : Except Unit (List ResultRec)) (df : Df) : Df × ℕ × ℕ :=
  if dry then (df, 0, 0)
  else
    match outcome with
    | .ok results =>
      (applySuccess results (u.ids.zip u.rows) df, (u.ids.zip u.rows).length, 0)
    | .error _ => (markErrors thr u.rows df, 0, u.rows.length)

/-- Process a list of indexed batches in the given completion order,
accumulating the two counters (`as_completed` merging,
src/agvd.py lines 206-209).  The outcome of batch number `k` is `f k`. -/
def runUnits (dry : Bool) (thr : ℚ) (f : ℕ → Except Unit (List ResultRec))
    (l : List (ℕ × QueryUnit)) (df : Df) : Df × ℕ × ℕ :=
  l.foldl (fun acc ku =>
    let step := process_batch dry thr ku.2 (f ku.1) acc.1
    (step.1, acc.2.1 + step.2.1, acc.2.2 + step.2.2)) (df, 0, 0)

/-- Model of the core of `process_table` (src/agvd.py lines 144-219):
normalize and group the identifiers marking invalid rows, plan the
batches, process every batch (here in submission order; commutation with
completion order is proved separately), and build the summary over the
full row count. -/
def process_table (B : ℤ) (thr : ℚ) (dry : Bool) (ids : List Str)
    (f : ℕ → Except Unit (List ResultRec)) : Except Str (Df × ℕ × ℕ × Summary) :=
  let g := groupIds ids
  let df1 := markInvalid g.invalid dfEmpty
  match planUnits B g with
  | .error e => .error e
  | .ok us =>
    let out := runUnits dry thr f us.enum df1
    .ok (out.1, out.2.1, out.2.2, generate_summary ids.length out.2.1 out.2.2)
/-! ## Claims about the summary, the batch-size handling and the query client -/

/-- Claim C7: for all non-negative integers, the generated run summary has
`success_rate = successful / total` whenever `total > 0` and
`success_rate = 0` when `total = 0`, with `total`, `successful` and
`failed` passed through unchanged. -/
theorem claim_c7 (total success fail : ℕ) :
    (generate_summary total success fail).total = total ∧
    (generate_summary total success fail).successful = success ∧
    (generate_summary total success fail).failed = fail ∧
    (0 < total → (generate_summary total success fail).success_rate = (success : ℚ) / (total : ℚ)) ∧
    (total = 0 → (generate_summary total success fail).success_rate = 0) := by
  refine ⟨rfl, rfl, rfl, fun h => ?_, fun h => ?_⟩
  · simp [generate_summary, h]
  · simp [generate_summary, h]

theorem claim_c7_witness :
    (generate_summary 4 3 1).success_rate = (3 : ℚ) / 4 ∧
    (generate_summary 0 5 2).success_rate = 0 :=
  ⟨(claim_c7 4 3 1).2.2.2.1 (by decide), (claim_c7 0 5 2).2.2.2.2 rfl⟩

/-- Claim C9, counterexample: the claim says the query client returns the
parsed result list for every status in the 2xx range, but the code checks
`status_code == 200` exactly, so status 201 (a 2xx status) raises instead
of returning the body. -/
theorem claim_c9_counterexample :
    (200 ≤ 201 ∧ 201 ≤ 299) ∧
    submit_query [] 201 [] = .error unknownErrorMsg ∧
    ∀ body : List ResultRec, submit_query [] 201 body ≠ .ok body := by
  exact ⟨by omega, rfl, fun body h => by simp [submit_query, lookupStatusMsg] at h⟩

/-- Claim C9, amended: the query client returns the parsed result list
exactly when the HTTP status is 200 (not the whole 2xx range), and raises
for every other status, with the message taken from the status-code lookup
table when the code is mapped and "Unknown error" otherwise. -/
theorem claim_c9 (table : List (ℕ × Str)) (status : ℕ) (body : List ResultRec) :
    (status = 200 → submit_query table status body = .ok body) ∧
    (status ≠ 200 →
      submit_query table status body = .error ((table.lookup status).getD unknownErrorMsg)) := by
  constructor <;> intro h <;> simp [submit_query, lookupStatusMsg, h]

theorem claim_c9_witness :
    submit_query [(404, "Not Found".toList)] 404 [] = .error "Not Found".toList ∧
    submit_query [(404, "Not Found".toList)] 200 [] = .ok [] :=
  ⟨by
    have h := (claim_c9 [(404, "Not Found".toList)] 404 []).2 (by decide)
    simpa using h,
   (claim_c9 [(404, "Not Found".toList)] 200 []).1 rfl⟩

/-- Claim C8, counterexample: a batch size of zero is not rejected at
startup; it reaches the batch-slicing loop, whose `range(0, len, 0)` call
raises `ValueError` at runtime — the error does manifest during batch
slicing, after normalization has already grouped the identifiers. -/
theorem claim_c8_counterexample :
    planUnits 0 (groupIds ["rs1".toList]) = .error rangeZeroStepMsg ∧
    process_table 0 1 false ["rs1".toList] (fun _ => .ok []) = .error rangeZeroStepMsg :=
  ⟨rfl, rfl⟩

/-- Claim C8, amended: no startup validation of the batch size exists.  A
batch size of zero manifests as a runtime `range()` error during batch
slicing, while a negative batch size silently produces an empty plan, so
no queries are dispatched and both counters stay zero. -/
theorem claim_c8 (B : ℤ) (thr : ℚ) (dry : Bool) (ids : List Str)
    (f : ℕ → Except Unit (List ResultRec)) :
    (B = 0 → process_table B thr dry ids f = .error rangeZeroStepMsg) ∧
    (B < 0 → planUnits B (groupIds ids) = .ok [] ∧
      ∃ out, process_table B thr dry ids f = .ok out ∧ out.2.1 = 0 ∧ out.2.2.1 = 0) := by
  constructor
  · intro h
    subst h
    simp [process_table, planUnits]
  · intro h
    have hne : B ≠ 0 := by omega
    have hplan : planUnits B (groupIds ids) = .ok [] := by
      simp [planUnits, hne, h]
    refine ⟨hplan, ?_⟩
    simp [process_table, hplan, runUnits]

theorem claim_c8_witness :
    process_table 0 1 false ["rs1".toList, "rs2".toList] (fun _ => .ok []) =
      .error rangeZeroStepMsg ∧
    planUnits (-2) (groupIds ["rs1".toList, "rs2".toList]) = .ok [] :=
  ⟨(claim_c8 0 1 false ["rs1".toList, "rs2".toList] (fun _ => .ok [])).1 rfl,
   ((claim_c8 (-2) 1 false ["rs1".toList, "rs2".toList] (fun _ => .ok [])).2 (by decide)).1⟩
/-! ## Helper lemmas: stripping and character classes -/

theorem dropWhile_append_all {p : Char → Bool} {u : Str} (v : Str)
    (h : ∀ x ∈ u, p x = true) : (u ++ v).dropWhile p = v.dropWhile p := by
  induction u with
  | nil => rfl
  | cons x xs ih =>
    simp only [List.cons_append, List.dropWhile_cons, h x (by simp)]
    exact ih (fun y hy => h y (by simp [hy]))

theorem contains_true_mem {l : Str} {x : Char} (h : l.contains x = true) : x ∈ l := by
  simpa [List.contains, List.elem_iff] using h

theorem dchar_mem {x : Char} (h : dchar x = true) : x ∈ digitChars :=
  contains_true_mem h

theorem wchar_mem {x : Char} (h : wchar x = true) : x ∈ wordChars :=
  contains_true_mem h

theorem dchar_not_space {x : Char} (h : dchar x = true) : pySpace x = false :=
  (by decide : ∀ y ∈ digitChars, pySpace y = false) x (dchar_mem h)

theorem wchar_not_space {x : Char} (h : wchar x = true) : pySpace x = false :=
  (by decide : ∀ y ∈ wordChars, pySpace y = false) x (wchar_mem h)

/-- The separator class as an explicit character list. -/
theorem sepAny_mem {d : Char} (h : sepAny d = true) : d ∈ ['_', '|', ':', '-', '>'] := by
  simp only [sepAny, Bool.or_eq_true, beq_iff_eq] at h
  rcases h with ((((rfl | rfl) | rfl) | rfl) | rfl) <;> simp

theorem sepAny_not_space {d : Char} (h : sepAny d = true) : pySpace d = false :=
  (by decide : ∀ y ∈ ['_', '|', ':', '-', '>'], pySpace y = false) d (sepAny_mem h)

/-- `str.strip()` of a string made of whitespace, a core with no leading or
trailing whitespace, and whitespace, is the core. -/
theorem pyStrip_spec (ws1 ws2 core : Str)
    (h1 : ∀ x ∈ ws1, pySpace x = true) (h2 : ∀ x ∈ ws2, pySpace x = true)
    (hne : core ≠ []) (hcore : ∀ x ∈ core, pySpace x = false) :
    pyStrip (ws1 ++ core ++ ws2) = core := by
  obtain ⟨c0, tl, rfl⟩ := List.exists_cons_of_ne_nil hne
  have hstep1 : ((ws1 ++ (c0 :: tl) ++ ws2).dropWhile pySpace) = (c0 :: tl) ++ ws2 := by
    rw [List.append_assoc, dropWhile_append_all _ h1]
    simp [List.dropWhile_cons, hcore c0 (by simp)]
  unfold pyStrip
  rw [hstep1, List.reverse_append]
  have hne2 : (c0 :: tl).reverse ≠ [] := by simp
  obtain ⟨y, ys, hy⟩ := List.exists_cons_of_ne_nil hne2
  have hymem : y ∈ (c0 :: tl) := by
    rw [← List.mem_reverse, hy]
    simp
  rw [dropWhile_append_all _ (fun x hx => h2 x (List.mem_reverse.mp hx)), hy,
    List.dropWhile_cons]
  simp only [hcore y hymem, Bool.false_eq_true, if_false]
  rw [← hy, List.reverse_reverse]

/-! ## Claim C5: rsID normalization is the identity -/

/-- Claim C5: every input that, after trimming surrounding whitespace,
matches `^rs\d+$` case-insensitively is returned trimmed but otherwise
unchanged (case preserved), with kind `rsID`. -/
theorem claim_c5 (ws1 ws2 : Str) (r s : Char) (ds : Str)
    (hws1 : ∀ x ∈ ws1, pySpace x = true) (hws2 : ∀ x ∈ ws2, pySpace x = true)
    (hr : r = 'r' ∨ r = 'R') (hs : s = 's' ∨ s = 'S')
    (hds : ds ≠ []) (hdig : ∀ x ∈ ds, dchar x = true) :
    standardize_variant_id (ws1 ++ (r :: s :: ds) ++ ws2) = .ok (r :: s :: ds, .rsID) := by
  have hcore : ∀ x ∈ (r :: s :: ds), pySpace x = false := by
    intro x hx
    rcases List.mem_cons.mp hx with rfl | hx
    · rcases hr with rfl | rfl <;> decide
    rcases List.mem_cons.mp hx with rfl | hx
    · rcases hs with rfl | rfl <;> decide
    exact dchar_not_space (hdig x hx)
  have hstrip : pyStrip (ws1 ++ (r :: s :: ds) ++ ws2) = r :: s :: ds :=
    pyStrip_spec ws1 ws2 _ hws1 hws2 (by simp) hcore
  have hrs : isRsId (r :: s :: ds) = true := by
    simp only [isRsId, Bool.and_eq_true, Bool.or_eq_true, beq_iff_eq]
    refine ⟨⟨?_, ?_⟩, ?_, ?_⟩
    · exact hr
    · exact hs
    · simpa [Bool.not_eq_true', List.isEmpty_iff] using hds
    · exact List.all_eq_true.mpr hdig
  unfold standardize_variant_id
  rw [hstrip]
  simp [hrs]
theorem claim_c5_witness :
    standardize_variant_id " Rs123".toList = .ok ("Rs123".toList, .rsID) := by
  have h := claim_c5 [' '] [] 'R' 's' "123".toList (by decide) (by decide)
    (Or.inr rfl) (Or.inl rfl) (by decide) (by decide)
  have e1 : [' '] ++ ('R' :: 's' :: "123".toList) ++ ([] : Str) = " Rs123".toList := by decide
  have e2 : ('R' :: 's' :: "123".toList) = "Rs123".toList := by decide
  rw [e1, e2] at h
  exact h
/-! ## Helper lemmas: grouping -/

/-- The kind assigned to a token by normalization, if any. -/
def stdKind (t : Str) : Option IdKind :=
  match standardize_variant_id t with
  | .ok (_, k) => some k
  | .error _ => none

/-- The normalized value of a token (junk for failing tokens). -/
def stdVal (t : Str) : Str :=
  match standardize_variant_id t with
  | .ok (s, _) => s
  | .error _ => []

theorem groupIdsFrom_char (ts : List Str) : ∀ i : ℕ,
    (groupIdsFrom i ts).vIds =
      ((ts.enumFrom i).filter (fun p => stdKind p.2 == some .variantID)).map (fun p => stdVal p.2) ∧
    (groupIdsFrom i ts).vRows =
      ((ts.enumFrom i).filter (fun p => stdKind p.2 == some .variantID)).map Prod.fst ∧
    (groupIdsFrom i ts).rIds =
      ((ts.enumFrom i).filter (fun p => stdKind p.2 == some .rsID)).map (fun p => stdVal p.2) ∧
    (groupIdsFrom i ts).rRows =
      ((ts.enumFrom i).filter (fun p => stdKind p.2 == some .rsID)).map Prod.fst ∧
    (groupIdsFrom i ts).invalid =
      ((ts.enumFrom i).filter (fun p => stdKind p.2 == none)).map Prod.fst := by
  induction ts with
  | nil => intro i; simp [groupIdsFrom]
  | cons t ts ih =>
    intro i
    obtain ⟨ih1, ih2, ih3, ih4, ih5⟩ := ih (i + 1)
    simp only [List.enumFrom_cons, List.filter_cons]
    cases hstd : standardize_variant_id t with
    | ok sk =>
      obtain ⟨s, k⟩ := sk
      cases k <;>
        simp [groupIdsFrom, hstd, stdKind, stdVal, ih1, ih2, ih3, ih4, ih5]
    | error e =>
      simp [groupIdsFrom, hstd, stdKind, ih1, ih2, ih3, ih4, ih5]

theorem enumFrom_le_fst {l : List α} : ∀ {i : ℕ} {p : ℕ × α}, p ∈ l.enumFrom i → i ≤ p.1 := by
  induction l with
  | nil => intro i p h; simp [List.enumFrom] at h
  | cons x xs ih =>
    intro i p h
    rw [List.enumFrom_cons] at h
    rcases List.mem_cons.mp h with rfl | h
    · exact le_refl _
    · exact le_trans (Nat.le_succ i) (ih h)

theorem enumFrom_fst_inj {l : List α} : ∀ {i : ℕ} {p q : ℕ × α},
    p ∈ l.enumFrom i → q ∈ l.enumFrom i → p.1 = q.1 → p = q := by
  induction l with
  | nil => intro i p q hp; simp [List.enumFrom] at hp
  | cons x xs ih =>
    intro i p q hp hq h
    rw [List.enumFrom_cons] at hp hq
    rcases List.mem_cons.mp hp with rfl | hp <;> rcases List.mem_cons.mp hq with rfl | hq
    · rfl
    · exact absurd (h ▸ enumFrom_le_fst hq) (by omega)
    · exact absurd (h ▸ enumFrom_le_fst hp) (by omega)
    · exact ih hp hq h

theorem filtered_enum_fst_nodup (l : List α) (i : ℕ) (P : ℕ × α → Bool) :
    (((l.enumFrom i).filter P).map Prod.fst).Nodup := by
  have hsub : ((l.enumFrom i).filter P).map Prod.fst |>.Sublist ((l.enumFrom i).map Prod.fst) :=
    List.Sublist.map _ (List.filter_sublist _)
  refine hsub.nodup ?_
  rw [List.enumFrom_map_fst]
  exact List.nodup_range' _ _

theorem vRows_nodup (ids : List Str) : (groupIds ids).vRows.Nodup := by
  rw [groupIds, (groupIdsFrom_char ids 0).2.1]
  exact filtered_enum_fst_nodup _ _ _

theorem rRows_nodup (ids : List Str) : (groupIds ids).rRows.Nodup := by
  rw [groupIds, (groupIdsFrom_char ids 0).2.2.2.1]
  exact filtered_enum_fst_nodup _ _ _

theorem filtered_enum_fst_disjoint (l : List α) (i : ℕ) (P Q : ℕ × α → Bool)
    (hPQ : ∀ p, P p = true → Q p = true → False) :
    (((l.enumFrom i).filter P).map Prod.fst).Disjoint (((l.enumFrom i).filter Q).map Prod.fst) := by
  intro x hx hy
  obtain ⟨p, hp, rfl⟩ := List.mem_map.mp hx
  obtain ⟨q, hq, hpq⟩ := List.mem_map.mp hy
  obtain ⟨hp1, hp2⟩ := List.mem_filter.mp hp
  obtain ⟨hq1, hq2⟩ := List.mem_filter.mp hq
  have : p = q := enumFrom_fst_inj hp1 hq1 hpq.symm
  exact hPQ p hp2 (this ▸ hq2)

theorem vRows_rRows_disjoint (ids : List Str) :
    (groupIds ids).vRows.Disjoint (groupIds ids).rRows := by
  rw [groupIds, (groupIdsFrom_char ids 0).2.1, (groupIdsFrom_char ids 0).2.2.2.1]
  exact filtered_enum_fst_disjoint _ _ _ _
    (fun p hP hQ => by
      simp only [beq_iff_eq] at hP hQ
      rw [hP] at hQ
      exact Option.some.inj hQ |> fun h => by cases h)

theorem vLen_eq (ids : List Str) : (groupIds ids).vIds.length = (groupIds ids).vRows.length := by
  rw [groupIds, (groupIdsFrom_char ids 0).1, (groupIdsFrom_char ids 0).2.1]
  simp

theorem rLen_eq (ids : List Str) : (groupIds ids).rIds.length = (groupIds ids).rRows.length := by
  rw [groupIds, (groupIdsFrom_char ids 0).2.2.1, (groupIdsFrom_char ids 0).2.2.2.1]
  simp
/-! ## Helper lemmas: slicing -/

theorem sliceIter_join_fst (b : ℕ) (hb : 1 ≤ b) : ∀ (fuel : ℕ) (ids : List Str) (rows : List ℕ),
    ids.length ≤ fuel → ((sliceIter b fuel ids rows).map Prod.fst).flatten = ids := by
  intro fuel
  induction fuel with
  | zero =>
    intro ids rows h
    rw [Nat.le_zero, List.length_eq_zero] at h
    subst h
    rfl
  | succ n ih =>
    intro ids rows h
    cases ids with
    | nil => rfl
    | cons x xs =>
      rw [sliceIter, if_neg (List.cons_ne_nil _ _)]
      simp only [List.map_cons, List.flatten_cons]
      rw [ih _ _ (by simp only [List.length_drop, List.length_cons] at h ⊢; omega)]
      exact List.take_append_drop b (x :: xs)

theorem sliceIter_join_snd (b : ℕ) (hb : 1 ≤ b) : ∀ (fuel : ℕ) (ids : List Str) (rows : List ℕ),
    ids.length = rows.length → ids.length ≤ fuel →
    ((sliceIter b fuel ids rows).map Prod.snd).flatten = rows := by
  intro fuel
  induction fuel with
  | zero =>
    intro ids rows hlen h
    rw [Nat.le_zero, List.length_eq_zero] at h
    subst h
    rw [List.length_nil] at hlen
    rw [(List.length_eq_zero).mp hlen.symm]
    rfl
  | succ n ih =>
    intro ids rows hlen h
    cases ids with
    | nil =>
      rw [List.length_nil] at hlen
      rw [(List.length_eq_zero).mp hlen.symm]
      rfl
    | cons x xs =>
      rw [sliceIter, if_neg (List.cons_ne_nil _ _)]
      simp only [List.map_cons, List.flatten_cons]
      rw [ih _ _ (by simp only [List.length_drop, List.length_cons] at hlen ⊢; omega)
        (by simp only [List.length_drop, List.length_cons] at h ⊢; omega)]
      exact List.take_append_drop b rows

theorem sliceIter_zip_join (b : ℕ) (hb : 1 ≤ b) : ∀ (fuel : ℕ) (ids : List Str) (rows : List ℕ),
    ids.length = rows.length → ids.length ≤ fuel →
    ((sliceIter b fuel ids rows).map (fun x => x.1.zip x.2)).flatten = ids.zip rows := by
  intro fuel
  induction fuel with
  | zero =>
    intro ids rows hlen h
    rw [Nat.le_zero, List.length_eq_zero] at h
    subst h
    rfl
  | succ n ih =>
    intro ids rows hlen h
    cases ids with
    | nil => rfl
    | cons x xs =>
      rw [sliceIter, if_neg (List.cons_ne_nil _ _)]
      simp only [List.map_cons, List.flatten_cons]
      rw [ih _ _ (by simp only [List.length_drop, List.length_cons] at hlen ⊢; omega)
        (by simp only [List.length_drop, List.length_cons] at h ⊢; omega)]
      conv_rhs => rw [← List.take_append_drop b (x :: xs), ← List.take_append_drop b rows]
      rw [List.zip_append]
      simp only [List.length_take]
      omega

theorem sliceIter_mem (b : ℕ) (_hb : 1 ≤ b) : ∀ (fuel : ℕ) (ids : List Str) (rows : List ℕ),
    ids.length = rows.length →
    ∀ x ∈ sliceIter b fuel ids rows, x.1.length ≤ b ∧ x.1.length = x.2.length := by
  intro fuel
  induction fuel with
  | zero => intro ids rows hlen x hx; simp [sliceIter] at hx
  | succ n ih =>
    intro ids rows hlen x hx
    cases ids with
    | nil => simp [sliceIter] at hx
    | cons y ys =>
      rw [sliceIter, if_neg (List.cons_ne_nil _ _)] at hx
      rcases List.mem_cons.mp hx with rfl | hx
      · constructor
        · simp only [List.length_take]
          omega
        · simp only [List.length_take]
          omega
      · exact ih _ _ (by simp only [List.length_drop, List.length_cons] at hlen ⊢; omega) x hx

theorem sliceBatches_join_fst (b : ℕ) (hb : 1 ≤ b) (ids : List Str) (rows : List ℕ) :
    ((sliceBatches b ids rows).map Prod.fst).flatten = ids := by
  rw [sliceBatches, if_neg (by omega)]
  exact sliceIter_join_fst b hb _ _ _ (le_refl _)

theorem sliceBatches_join_snd (b : ℕ) (hb : 1 ≤ b) (ids : List Str) (rows : List ℕ)
    (hlen : ids.length = rows.length) :
    ((sliceBatches b ids rows).map Prod.snd).flatten = rows := by
  rw [sliceBatches, if_neg (by omega)]
  exact sliceIter_join_snd b hb _ _ _ hlen (le_refl _)

theorem sliceBatches_zip_join (b : ℕ) (hb : 1 ≤ b) (ids : List Str) (rows : List ℕ)
    (hlen : ids.length = rows.length) :
    ((sliceBatches b ids rows).map (fun x => x.1.zip x.2)).flatten = ids.zip rows := by
  rw [sliceBatches, if_neg (by omega)]
  exact sliceIter_zip_join b hb _ _ _ hlen (le_refl _)

theorem sliceBatches_mem (b : ℕ) (hb : 1 ≤ b) (ids : List Str) (rows : List ℕ)
    (hlen : ids.length = rows.length) :
    ∀ x ∈ sliceBatches b ids rows, x.1.length ≤ b ∧ x.1.length = x.2.length := by
  rw [sliceBatches, if_neg (by omega)]
  exact sliceIter_mem b hb _ _ _ hlen
/-! ## Helper lemmas: the batch plan -/

theorem thePlan_filter_v (b : ℕ) (g : Grouped) :
    (thePlan b g).filter (fun u => u.kind == IdKind.variantID) =
      (sliceBatches b g.vIds g.vRows).map (fun x => ⟨x.1, x.2, .variantID⟩) := by
  simp [thePlan, List.filter_append, List.filter_map, Function.comp_def]

theorem thePlan_filter_r (b : ℕ) (g : Grouped) :
    (thePlan b g).filter (fun u => u.kind == IdKind.rsID) =
      (sliceBatches b g.rIds g.rRows).map (fun x => ⟨x.1, x.2, .rsID⟩) := by
  simp [thePlan, List.filter_append, List.filter_map, Function.comp_def]

theorem thePlan_rows_flatten (b : ℕ) (g : Grouped) (hb : 1 ≤ b)
    (hv : g.vIds.length = g.vRows.length) (hr : g.rIds.length = g.rRows.length) :
    ((thePlan b g).map (fun u => u.rows)).flatten = g.vRows ++ g.rRows := by
  simp only [thePlan, List.map_append, List.map_map, List.flatten_append]
  have hcv : ((fun u : QueryUnit => u.rows) ∘ fun x : List Str × List ℕ =>
      (⟨x.1, x.2, .variantID⟩ : QueryUnit)) = Prod.snd := rfl
  have hcr : ((fun u : QueryUnit => u.rows) ∘ fun x : List Str × List ℕ =>
      (⟨x.1, x.2, .rsID⟩ : QueryUnit)) = Prod.snd := rfl
  rw [hcv, hcr, sliceBatches_join_snd b hb _ _ hv, sliceBatches_join_snd b hb _ _ hr]

theorem thePlan_rows_nodup (ids : List Str) (b : ℕ) (hb : 1 ≤ b) :
    (((thePlan b (groupIds ids)).map (fun u => u.rows)).flatten).Nodup := by
  rw [thePlan_rows_flatten b _ hb (vLen_eq ids) (rLen_eq ids)]
  exact (vRows_nodup ids).append (rRows_nodup ids) (vRows_rRows_disjoint ids)

theorem thePlan_mem_len (b : ℕ) (g : Grouped) (hb : 1 ≤ b)
    (hv : g.vIds.length = g.vRows.length) (hr : g.rIds.length = g.rRows.length) :
    ∀ u ∈ thePlan b g, u.ids.length = u.rows.length ∧ u.ids.length ≤ b := by
  intro u hu
  rcases List.mem_append.mp hu with hu | hu <;>
    obtain ⟨x, hx, rfl⟩ := List.mem_map.mp hu
  · have := sliceBatches_mem b hb _ _ hv x hx
    exact ⟨this.2, this.1⟩
  · have := sliceBatches_mem b hb _ _ hr x hx
    exact ⟨this.2, this.1⟩

theorem planUnits_pos (B : ℤ) (hB : 1 ≤ B) (g : Grouped) :
    planUnits B g = .ok (thePlan B.toNat g) := by
  rw [planUnits, if_neg (by omega), if_neg (by omega)]

/-! ## Claim C1: batch planning is a partition -/

/-- Claim C1: for every input table and positive batch size, batch
planning partitions the normalized identifiers: the batches of each kind
concatenate (in order) to that kind's identifier/row-index pairs, which
are exactly the successfully normalized rows in source order with their
original indices; the joined row indices over all batches have no
duplicate (so each pair lands in exactly one batch); batches are grouped
by kind; and every batch has parallel lists of equal length, at most the
configured batch size. -/
theorem claim_c1 (ids : List Str) (B : ℤ) (hB : 1 ≤ B) :
    planUnits B (groupIds ids) = .ok (thePlan B.toNat (groupIds ids)) ∧
    (((thePlan B.toNat (groupIds ids)).filter (fun u => u.kind == IdKind.variantID)).map
        (fun u => u.ids.zip u.rows)).flatten =
      (groupIds ids).vIds.zip (groupIds ids).vRows ∧
    (((thePlan B.toNat (groupIds ids)).filter (fun u => u.kind == IdKind.rsID)).map
        (fun u => u.ids.zip u.rows)).flatten =
      (groupIds ids).rIds.zip (groupIds ids).rRows ∧
    (groupIds ids).vIds.zip (groupIds ids).vRows =
      (ids.enum.filter (fun p => stdKind p.2 == some .variantID)).map
        (fun p => (stdVal p.2, p.1)) ∧
    (groupIds ids).rIds.zip (groupIds ids).rRows =
      (ids.enum.filter (fun p => stdKind p.2 == some .rsID)).map
        (fun p => (stdVal p.2, p.1)) ∧
    (((thePlan B.toNat (groupIds ids)).map (fun u => u.rows)).flatten).Nodup ∧
    ∀ u ∈ thePlan B.toNat (groupIds ids),
      u.ids.length = u.rows.length ∧ u.ids.length ≤ B.toNat := by
  have hb : 1 ≤ B.toNat := by omega
  refine ⟨planUnits_pos B hB _, ?_, ?_, ?_, ?_, thePlan_rows_nodup ids _ hb,
    thePlan_mem_len _ _ hb (vLen_eq ids) (rLen_eq ids)⟩
  · rw [thePlan_filter_v, List.map_map]
    have hc : ((fun u : QueryUnit => u.ids.zip u.rows) ∘ fun x : List Str × List ℕ =>
        (⟨x.1, x.2, .variantID⟩ : QueryUnit)) = fun x => x.1.zip x.2 := rfl
    rw [hc, sliceBatches_zip_join _ hb _ _ (vLen_eq ids)]
  · rw [thePlan_filter_r, List.map_map]
    have hc : ((fun u : QueryUnit => u.ids.zip u.rows) ∘ fun x : List Str × List ℕ =>
        (⟨x.1, x.2, .rsID⟩ : QueryUnit)) = fun x => x.1.zip x.2 := rfl
    rw [hc, sliceBatches_zip_join _ hb _ _ (rLen_eq ids)]
  · rw [groupIds, (groupIdsFrom_char ids 0).1, (groupIdsFrom_char ids 0).2.1, List.zip_map']
    rfl
  · rw [groupIds, (groupIdsFrom_char ids 0).2.2.1, (groupIdsFrom_char ids 0).2.2.2.1,
      List.zip_map']
    rfl

theorem claim_c1_witness :
    planUnits 2 (groupIds ["rs1".toList, "1:2:a:t".toList, "oops".toList]) =
      .ok (thePlan 2 (groupIds ["rs1".toList, "1:2:a:t".toList, "oops".toList])) ∧
    ∀ u ∈ thePlan 2 (groupIds ["rs1".toList, "1:2:a:t".toList, "oops".toList]),
      u.ids.length = u.rows.length ∧ u.ids.length ≤ 2 := by
  have h := claim_c1 ["rs1".toList, "1:2:a:t".toList, "oops".toList] 2 (by decide)
  exact ⟨h.1, by simpa using h.2.2.2.2.2.2⟩
/-! ## Helper lemmas: row writes -/

theorem setRow_same (df : Df) (i : ℕ) (r : Row) : setRow df i r i = r := by
  simp [setRow]

theorem setRow_other (df : Df) (i : ℕ) (r : Row) (j : ℕ) (h : j ≠ i) :
    setRow df i r j = df j := by
  simp [setRow, h]

theorem applySuccess_cons (results : List ResultRec) (p : Str × ℕ)
    (rest : List (Str × ℕ)) (df : Df) :
    applySuccess results (p :: rest) df =
      applySuccess results rest (setRow df p.2 (writeRow (get_result_info p.1 results) (df p.2))) :=
  rfl

theorem markErrors_cons (thr : ℚ) (r : ℕ) (rest : List ℕ) (df : Df) :
    markErrors thr (r :: rest) df = markErrors thr rest (setRow df r (errorRow thr (df r))) :=
  rfl

theorem markInvalid_cons (r : ℕ) (rest : List ℕ) (df : Df) :
    markInvalid (r :: rest) df =
      markInvalid rest (setRow df r { df r with agvdcutoff := .val invalidStatus }) :=
  rfl

theorem applySuccess_not_mem (results : List ResultRec) :
    ∀ (pairs : List (Str × ℕ)) (df : Df) (i : ℕ),
    (∀ p ∈ pairs, p.2 ≠ i) → applySuccess results pairs df i = df i := by
  intro pairs
  induction pairs with
  | nil => intro df i _; rfl
  | cons p rest ih =>
    intro df i h
    rw [applySuccess_cons, ih _ i (fun q hq => h q (by simp [hq]))]
    exact setRow_other _ _ _ _ (fun he => h p (by simp) he.symm)

theorem applySuccess_at (results : List ResultRec) :
    ∀ (pairs : List (Str × ℕ)) (df : Df) (s : Str) (i : ℕ),
    (pairs.map Prod.snd).Nodup → (s, i) ∈ pairs →
    applySuccess results pairs df i = writeRow (get_result_info s results) (df i) := by
  intro pairs
  induction pairs with
  | nil => intro df s i _ h; simp at h
  | cons p rest ih =>
    intro df s i hnd hmem
    simp only [List.map_cons, List.nodup_cons] at hnd
    rw [applySuccess_cons]
    rcases List.mem_cons.mp hmem with rfl | hmem
    · rw [applySuccess_not_mem results rest _ i ?side]
      · exact setRow_same _ _ _
      case side =>
        intro q hq he
        have hq2 : q.2 ∈ rest.map Prod.snd := List.mem_map_of_mem Prod.snd hq
        rw [he] at hq2
        exact hnd.1 hq2
    · have hi : i ∈ rest.map Prod.snd := by
        have := List.mem_map_of_mem Prod.snd hmem
        simpa using this
      have hne : p.2 ≠ i := fun he => hnd.1 (he ▸ hi)
      rw [ih _ s i hnd.2 hmem, setRow_other _ _ _ _ (Ne.symm hne)]

theorem markErrors_not_mem (thr : ℚ) :
    ∀ (rows : List ℕ) (df : Df) (i : ℕ), i ∉ rows → markErrors thr rows df i = df i := by
  intro rows
  induction rows with
  | nil => intro df i _; rfl
  | cons r rest ih =>
    intro df i h
    rw [markErrors_cons, ih _ i (fun hm => h (by simp [hm]))]
    exact setRow_other _ _ _ _ (fun he => h (he ▸ by simp))

theorem markErrors_at (thr : ℚ) :
    ∀ (rows : List ℕ) (df : Df) (i : ℕ), rows.Nodup → i ∈ rows →
    markErrors thr rows df i = errorRow thr (df i) := by
  intro rows
  induction rows with
  | nil => intro df i _ h; simp at h
  | cons r rest ih =>
    intro df i hnd hmem
    rw [List.nodup_cons] at hnd
    rw [markErrors_cons]
    rcases List.mem_cons.mp hmem with rfl | hmem
    · rw [markErrors_not_mem thr rest _ i hnd.1]
      exact setRow_same _ _ _
    · have hne : i ≠ r := fun he => hnd.1 (he ▸ hmem)
      rw [ih _ i hnd.2 hmem, setRow_other _ _ _ _ hne]

theorem markInvalid_not_mem :
    ∀ (rows : List ℕ) (df : Df) (i : ℕ), i ∉ rows → markInvalid rows df i = df i := by
  intro rows
  induction rows with
  | nil => intro df i _; rfl
  | cons r rest ih =>
    intro df i h
    rw [markInvalid_cons, ih _ i (fun hm => h (by simp [hm]))]
    exact setRow_other _ _ _ _ (fun he => h (he ▸ by simp))

theorem markInvalid_at :
    ∀ (rows : List ℕ) (df : Df) (i : ℕ), rows.Nodup → i ∈ rows →
    markInvalid rows df i = { df i with agvdcutoff := .val invalidStatus } := by
  intro rows
  induction rows with
  | nil => intro df i _ h; simp at h
  | cons r rest ih =>
    intro df i hnd hmem
    rw [List.nodup_cons] at hnd
    rw [markInvalid_cons]
    rcases List.mem_cons.mp hmem with rfl | hmem
    · rw [markInvalid_not_mem rest _ i hnd.1]
      exact setRow_same _ _ _
    · have hne : i ≠ r := fun he => hnd.1 (he ▸ hmem)
      rw [ih _ i hnd.2 hmem, setRow_other _ _ _ _ hne]
/-! ## Helper lemmas: batch processing and dispatch order -/

theorem map_snd_zip_sublist : ∀ (l1 : List Str) (l2 : List ℕ),
    ((l1.zip l2).map Prod.snd).Sublist l2 := by
  intro l1
  induction l1 with
  | nil => intro l2; simp
  | cons x xs ih =>
    intro l2
    cases l2 with
    | nil => simp
    | cons y ys => exact List.Sublist.cons₂ y (ih ys)

theorem process_batch_not_mem (dry : Bool) (thr : ℚ) (u : QueryUnit)
    (o : Except Unit (List ResultRec)) (df : Df) (i : ℕ) (h : i ∉ u.rows) :
    (process_batch dry thr u o df).1 i = df i := by
  cases dry
  · cases o with
    | ok res =>
      refine applySuccess_not_mem res _ df i (fun p hp he => h ?_)
      exact he ▸ (List.of_mem_zip hp).2
    | error e => exact markErrors_not_mem thr _ df i h
  · rfl

theorem process_batch_at (thr : ℚ) (u : QueryUnit) (o : Except Unit (List ResultRec))
    (df df' : Df) (i : ℕ) (hnd : u.rows.Nodup) (heq : df i = df' i) :
    (process_batch false thr u o df).1 i = (process_batch false thr u o df').1 i := by
  have hsnd : ((u.ids.zip u.rows).map Prod.snd).Nodup :=
    (map_snd_zip_sublist u.ids u.rows).nodup hnd
  cases o with
  | ok res =>
    by_cases hm : i ∈ (u.ids.zip u.rows).map Prod.snd
    · obtain ⟨p, hp, hpi⟩ := List.mem_map.mp hm
      have hp' : (p.1, i) ∈ u.ids.zip u.rows := by
        rw [← hpi]
        exact hp
      show applySuccess res _ df i = applySuccess res _ df' i
      rw [applySuccess_at res _ df p.1 i hsnd hp', applySuccess_at res _ df' p.1 i hsnd hp', heq]
    · have hne : ∀ p ∈ u.ids.zip u.rows, p.2 ≠ i := by
        intro p hp he
        exact hm (he ▸ List.mem_map_of_mem Prod.snd hp)
      show applySuccess res _ df i = applySuccess res _ df' i
      rw [applySuccess_not_mem res _ df i hne, applySuccess_not_mem res _ df' i hne, heq]
  | error e =>
    by_cases hm : i ∈ u.rows
    · show markErrors thr _ df i = markErrors thr _ df' i
      rw [markErrors_at thr _ df i hnd hm, markErrors_at thr _ df' i hnd hm, heq]
    · show markErrors thr _ df i = markErrors thr _ df' i
      rw [markErrors_not_mem thr _ df i hm, markErrors_not_mem thr _ df' i hm, heq]

theorem runUnits_foldl_shift (dry : Bool) (thr : ℚ) (f : ℕ → Except Unit (List ResultRec)) :
    ∀ (l : List (ℕ × QueryUnit)) (df : Df) (a b : ℕ),
    l.foldl (fun acc ku =>
      let step := process_batch dry thr ku.2 (f ku.1) acc.1
      (step.1, acc.2.1 + step.2.1, acc.2.2 + step.2.2)) (df, a, b) =
    ((runUnits dry thr f l df).1,
     a + (runUnits dry thr f l df).2.1, b + (runUnits dry thr f l df).2.2) := by
  intro l
  induction l with
  | nil => intro df a b; simp [runUnits]
  | cons ku l ih =>
    intro df a b
    rw [List.foldl_cons]
    have hrun : runUnits dry thr f (ku :: l) df =
        ((runUnits dry thr f l (process_batch dry thr ku.2 (f ku.1) df).1).1,
         0 + (process_batch dry thr ku.2 (f ku.1) df).2.1 +
           (runUnits dry thr f l (process_batch dry thr ku.2 (f ku.1) df).1).2.1,
         0 + (process_batch dry thr ku.2 (f ku.1) df).2.2 +
           (runUnits dry thr f l (process_batch dry thr ku.2 (f ku.1) df).1).2.2) := by
      rw [runUnits, List.foldl_cons]
      exact ih _ _ _
    rw [ih, hrun]
    refine Prod.ext rfl (Prod.ext ?_ ?_) <;> simp <;> omega

theorem runUnits_cons (dry : Bool) (thr : ℚ) (f : ℕ → Except Unit (List ResultRec))
    (ku : ℕ × QueryUnit) (l : List (ℕ × QueryUnit)) (df : Df) :
    runUnits dry thr f (ku :: l) df =
      ((runUnits dry thr f l (process_batch dry thr ku.2 (f ku.1) df).1).1,
       (process_batch dry thr ku.2 (f ku.1) df).2.1 +
         (runUnits dry thr f l (process_batch dry thr ku.2 (f ku.1) df).1).2.1,
       (process_batch dry thr ku.2 (f ku.1) df).2.2 +
         (runUnits dry thr f l (process_batch dry thr ku.2 (f ku.1) df).1).2.2) := by
  rw [runUnits, List.foldl_cons]
  have := runUnits_foldl_shift dry thr f l (process_batch dry thr ku.2 (f ku.1) df).1
    ((0 : ℕ) + (process_batch dry thr ku.2 (f ku.1) df).2.1)
    ((0 : ℕ) + (process_batch dry thr ku.2 (f ku.1) df).2.2)
  simp only [Nat.zero_add] at this ⊢
  exact this

theorem runUnits_fst (dry : Bool) (thr : ℚ) (f : ℕ → Except Unit (List ResultRec)) :
    ∀ (l : List (ℕ × QueryUnit)) (df : Df),
    (runUnits dry thr f l df).1 =
      l.foldl (fun d ku => (process_batch dry thr ku.2 (f ku.1) d).1) df := by
  intro l
  induction l with
  | nil => intro df; rfl
  | cons ku l ih =>
    intro df
    rw [runUnits_cons, List.foldl_cons]
    exact ih _

theorem runUnits_not_mem (dry : Bool) (thr : ℚ) (f : ℕ → Except Unit (List ResultRec)) :
    ∀ (l : List (ℕ × QueryUnit)) (df : Df) (i : ℕ),
    (∀ ku ∈ l, i ∉ ku.2.rows) → (runUnits dry thr f l df).1 i = df i := by
  intro l
  induction l with
  | nil => intro df i _; rfl
  | cons ku l ih =>
    intro df i h
    rw [runUnits_fst, List.foldl_cons, ← runUnits_fst]
    rw [ih _ i (fun q hq => h q (by simp [hq]))]
    exact process_batch_not_mem dry thr ku.2 (f ku.1) df i (h ku (by simp))
theorem us_enum_nodup (us : List QueryUnit) : us.enum.Nodup :=
  List.Nodup.of_map Prod.fst (by rw [List.enum_map_fst]; exact List.nodup_range _)

theorem mem_enum_self (us : List QueryUnit) (k : ℕ) (hk : k < us.length) :
    (k, us.get ⟨k, hk⟩) ∈ us.enum := by
  have hk' : k < us.enum.length := by
    rw [List.enum_length]
    exact hk
  have hg := List.getElem_enum us k hk'
  rw [List.get_eq_getElem, ← hg]
  exact List.getElem_mem hk'

theorem mem_enum_eq (us : List QueryUnit) (ku : ℕ × QueryUnit) (h : ku ∈ us.enum) :
    ∃ hk : ku.1 < us.length, ku.2 = us.get ⟨ku.1, hk⟩ := by
  have hk : ku.1 < us.length := by
    have : ku.1 ∈ us.enum.map Prod.fst := List.mem_map_of_mem Prod.fst h
    rw [List.enum_map_fst] at this
    exact List.mem_range.mp this
  refine ⟨hk, ?_⟩
  have h2 : (ku.1, us.get ⟨ku.1, hk⟩) ∈ us.enum := mem_enum_self us ku.1 hk
  have := enumFrom_fst_inj (l := us) (i := 0) h h2 rfl
  exact congrArg Prod.snd this

theorem plan_rows_disjoint (us : List QueryUnit)
    (hnd : ((us.map (fun u => u.rows)).flatten).Nodup)
    (k k' : ℕ) (hk : k < us.length) (hk' : k' < us.length) (hne : k ≠ k') :
    (us.get ⟨k, hk⟩).rows.Disjoint (us.get ⟨k', hk'⟩).rows := by
  have hpair := (List.nodup_flatten.mp hnd).2
  rw [List.pairwise_iff_getElem] at hpair
  rw [List.get_eq_getElem, List.get_eq_getElem]
  rcases Nat.lt_or_ge k k' with h | h
  · have := hpair k k' (by simpa using hk) (by simpa using hk') h
    simpa [List.getElem_map] using this
  · have hlt : k' < k := by omega
    have := hpair k' k (by simpa using hk') (by simpa using hk) hlt
    rw [List.getElem_map, List.getElem_map] at this
    exact this.symm

theorem plan_rows_nodup_each (us : List QueryUnit)
    (hnd : ((us.map (fun u => u.rows)).flatten).Nodup)
    (k : ℕ) (hk : k < us.length) : (us.get ⟨k, hk⟩).rows.Nodup := by
  refine (List.nodup_flatten.mp hnd).1 (us.get ⟨k, hk⟩).rows ?_
  exact List.mem_map.mpr ⟨us.get ⟨k, hk⟩, List.get_mem us k hk, rfl⟩

theorem runUnits_fst_append_cons (dry : Bool) (thr : ℚ)
    (f : ℕ → Except Unit (List ResultRec)) (l1 : List (ℕ × QueryUnit))
    (ku : ℕ × QueryUnit) (l2 : List (ℕ × QueryUnit)) (df : Df) :
    (runUnits dry thr f (l1 ++ ku :: l2) df).1 =
      (runUnits dry thr f l2
        (process_batch dry thr ku.2 (f ku.1) (runUnits dry thr f l1 df).1).1).1 := by
  simp only [runUnits_fst]
  rw [List.foldl_append, List.foldl_cons]

/-- Processing the planned batches in any completion order: the final value
of a row belonging to batch `k` is determined by batch `k`'s processing of
the initial frame alone. -/
theorem runUnits_perm_at (thr : ℚ) (f : ℕ → Except Unit (List ResultRec))
    (us : List QueryUnit) (hnd : ((us.map (fun u => u.rows)).flatten).Nodup)
    (l : List (ℕ × QueryUnit)) (hperm : l.Perm us.enum)
    (k : ℕ) (hk : k < us.length) (i : ℕ) (hi : i ∈ (us.get ⟨k, hk⟩).rows) (df : Df) :
    (runUnits false thr f l df).1 i = (process_batch false thr (us.get ⟨k, hk⟩) (f k) df).1 i := by
  have hmem : (k, us.get ⟨k, hk⟩) ∈ l := hperm.mem_iff.mpr (mem_enum_self us k hk)
  obtain ⟨l1, l2, rfl⟩ := List.append_of_mem hmem
  have hlnd : (l1 ++ (k, us.get ⟨k, hk⟩) :: l2).Nodup :=
    hperm.nodup_iff.mpr (us_enum_nodup us)
  rw [List.nodup_append] at hlnd
  obtain ⟨hnd1, hnd2, hdisj⟩ := hlnd
  have hl2 : (k, us.get ⟨k, hk⟩) ∉ l2 := (List.nodup_cons.mp hnd2).1
  have hl1 : (k, us.get ⟨k, hk⟩) ∉ l1 := fun hmem1 => hdisj hmem1 (by simp)
  have hother : ∀ ku : ℕ × QueryUnit,
      ku ∈ l1 ++ (k, us.get ⟨k, hk⟩) :: l2 → ku ≠ (k, us.get ⟨k, hk⟩) → i ∉ ku.2.rows := by
    intro ku hku hkune hrow
    have hku_enum : ku ∈ us.enum := hperm.mem_iff.mp hku
    obtain ⟨hk', hku2⟩ := mem_enum_eq us ku hku_enum
    have hkk : ku.1 ≠ k := by
      intro he
      apply hkune
      have hg : us.get ⟨ku.1, hk'⟩ = us.get ⟨k, hk⟩ := by congr
      exact Prod.ext he (hku2.trans hg)
    exact plan_rows_disjoint us hnd ku.1 k hk' hk hkk (hku2 ▸ hrow) hi
  have hl1other : ∀ ku ∈ l1, i ∉ ku.2.rows := fun ku hku =>
    hother ku (List.mem_append.mpr (Or.inl hku)) (fun he => hl1 (he ▸ hku))
  have hl2other : ∀ ku ∈ l2, i ∉ ku.2.rows := fun ku hku =>
    hother ku (List.mem_append.mpr (Or.inr (List.mem_cons_of_mem _ hku)))
      (fun he => hl2 (he ▸ hku))
  rw [runUnits_fst_append_cons]
  rw [runUnits_not_mem false thr f l2 _ i hl2other]
  exact process_batch_at thr _ (f k) _ df i (plan_rows_nodup_each us hnd k hk)
    (runUnits_not_mem false thr f l1 df i hl1other)
/-! ## Claim C3: result merging on a successfully submitted batch -/

/-- Claim C3: for a successfully submitted batch and every
identifier/row-index pair in it, if the returned result list contains a
record whose `variantID` or `rsID` equals the identifier, the row receives
the record's `usedThreshold`, status, `mafThreshold` and all
cluster-frequency columns; if no record matches, the row gets
`AGVDCUTOFF = NO MATCH` with null threshold and frequency.  Either way the
batch counts one success per row and zero failures. -/
theorem claim_c3 (thr : ℚ) (kind : IdKind) (batch : List Str) (rows : List ℕ)
    (results : List ResultRec) (df : Df) (hlen : batch.length = rows.length)
    (hnd : rows.Nodup) (j : ℕ) (hj : j < batch.length) (hjr : j < rows.length) :
    (∀ rec, findRec (batch.get ⟨j, hj⟩) results = some rec →
      (process_batch false thr ⟨batch, rows, kind⟩ (.ok results) df).1 (rows.get ⟨j, hjr⟩) =
        { threshold := cellOfOpt rec.usedThreshold
          agvdcutoff := .val (rec.agvdThresholdStatus.getD unknownStatus)
          africanMaf := cellOfOpt rec.mafThreshold
          clusters := rec.clusters.foldl (fun cs nc => setCluster cs nc.1 (cellOfOpt nc.2))
            (df (rows.get ⟨j, hjr⟩)).clusters }) ∧
    (findRec (batch.get ⟨j, hj⟩) results = none →
      (process_batch false thr ⟨batch, rows, kind⟩ (.ok results) df).1 (rows.get ⟨j, hjr⟩) =
        { threshold := .null, agvdcutoff := .val noMatchStatus, africanMaf := .null
          clusters := (df (rows.get ⟨j, hjr⟩)).clusters }) ∧
    (process_batch false thr ⟨batch, rows, kind⟩ (.ok results) df).2 = (batch.length, 0) := by
  have hjz : j < (batch.zip rows).length := by
    rw [List.length_zip]
    omega
  have hpair : (batch.get ⟨j, hj⟩, rows.get ⟨j, hjr⟩) ∈ batch.zip rows := by
    have hg := @List.getElem_zip _ _ batch rows j hjz
    rw [List.get_eq_getElem, List.get_eq_getElem, ← hg]
    exact List.getElem_mem hjz
  have hsnd : ((batch.zip rows).map Prod.snd).Nodup :=
    (map_snd_zip_sublist batch rows).nodup hnd
  have hval : (process_batch false thr ⟨batch, rows, kind⟩ (.ok results) df).1
        (rows.get ⟨j, hjr⟩) =
      writeRow (get_result_info (batch.get ⟨j, hj⟩) results) (df (rows.get ⟨j, hjr⟩)) :=
    applySuccess_at results (batch.zip rows) df _ _ hsnd hpair
  refine ⟨?_, ?_, ?_⟩
  · intro rec hrec
    rw [hval, get_result_info, hrec, writeRow]
  · intro hrec
    rw [hval, get_result_info, hrec, writeRow]
    rfl
  · show ((batch.zip rows).length, 0) = (batch.length, 0)
    rw [List.length_zip]
    have : batch.length ⊓ rows.length = batch.length := by omega
    rw [this]

theorem claim_c3_witness :
    (process_batch false 1 ⟨["rs1".toList, "rs2".toList], [0, 1], .rsID⟩
        (.ok [⟨none, some "rs1".toList, none, some "PASS".toList, none, []⟩]) dfEmpty).2 =
      (2, 0) :=
  (claim_c3 1 .rsID ["rs1".toList, "rs2".toList] [0, 1]
    [⟨none, some "rs1".toList, none, some "PASS".toList, none, []⟩] dfEmpty rfl
    (by decide) 0 (by decide) (by decide)).2.2
/-! ## Claim C2: batch failure is atomic, isolated and order-independent -/

theorem invalid_disjoint (ids : List Str) (i : ℕ)
    (hmem : i ∈ (groupIds ids).vRows ++ (groupIds ids).rRows) :
    i ∉ (groupIds ids).invalid := by
  intro hinv
  rw [groupIds, (groupIdsFrom_char ids 0).2.2.2.2] at hinv
  rcases List.mem_append.mp hmem with hv | hr
  · rw [groupIds, (groupIdsFrom_char ids 0).2.1] at hv
    exact filtered_enum_fst_disjoint ids 0 _ _
      (fun p hP hQ => by
        simp only [beq_iff_eq] at hP hQ
        rw [hP] at hQ
        cases hQ) hv hinv
  · rw [groupIds, (groupIdsFrom_char ids 0).2.2.2.1] at hr
    exact filtered_enum_fst_disjoint ids 0 _ _
      (fun p hP hQ => by
        simp only [beq_iff_eq] at hP hQ
        rw [hP] at hQ
        cases hQ) hr hinv

theorem plan_row_not_invalid (ids : List Str) (B : ℤ) (hB : 1 ≤ B)
    (k : ℕ) (hk : k < (thePlan B.toNat (groupIds ids)).length) (i : ℕ)
    (hi : i ∈ ((thePlan B.toNat (groupIds ids)).get ⟨k, hk⟩).rows) :
    i ∉ (groupIds ids).invalid := by
  refine invalid_disjoint ids i ?_
  rw [← thePlan_rows_flatten B.toNat (groupIds ids) (by omega) (vLen_eq ids) (rLen_eq ids)]
  refine List.mem_flatten.mpr ⟨((thePlan B.toNat (groupIds ids)).get ⟨k, hk⟩).rows, ?_, hi⟩
  exact List.mem_map.mpr ⟨_, List.get_mem _ k hk, rfl⟩

/-- Claim C2: each batch is processed atomically with respect to the
output table, independently of dispatch completion order.  For every row
of batch `k`: its final value equals batch `k`'s own processing of the
initial frame; if the submit outcome for batch `k` is an error, the row
ends with `THRESHOLD` the requested threshold, `AGVDCUTOFF = ERROR` and no
allele-frequency value; if the outcome is a parsed result list, the row
receives the merged result data for its identifier. -/
theorem claim_c2 (ids : List Str) (B : ℤ) (thr : ℚ)
    (f : ℕ → Except Unit (List ResultRec)) (hB : 1 ≤ B)
    (l : List (ℕ × QueryUnit))
    (hl : l.Perm (thePlan B.toNat (groupIds ids)).enum)
    (k : ℕ) (hk : k < (thePlan B.toNat (groupIds ids)).length)
    (i : ℕ) (hi : i ∈ ((thePlan B.toNat (groupIds ids)).get ⟨k, hk⟩).rows) :
    (runUnits false thr f l (markInvalid (groupIds ids).invalid dfEmpty)).1 i =
      (process_batch false thr ((thePlan B.toNat (groupIds ids)).get ⟨k, hk⟩) (f k)
        (markInvalid (groupIds ids).invalid dfEmpty)).1 i ∧
    markInvalid (groupIds ids).invalid dfEmpty i = emptyRow ∧
    (∀ e, f k = .error e →
      (runUnits false thr f l (markInvalid (groupIds ids).invalid dfEmpty)).1 i =
        ⟨.val thr, .val errorStatus, .null, []⟩) ∧
    (∀ res, f k = .ok res →
      ∀ (j : ℕ) (hj1 : j < ((thePlan B.toNat (groupIds ids)).get ⟨k, hk⟩).ids.length)
        (hj2 : j < ((thePlan B.toNat (groupIds ids)).get ⟨k, hk⟩).rows.length),
      ((thePlan B.toNat (groupIds ids)).get ⟨k, hk⟩).rows.get ⟨j, hj2⟩ = i →
      (runUnits false thr f l (markInvalid (groupIds ids).invalid dfEmpty)).1 i =
        writeRow (get_result_info (((thePlan B.toNat (groupIds ids)).get ⟨k, hk⟩).ids.get
          ⟨j, hj1⟩) res) emptyRow) := by
  have hb : 1 ≤ B.toNat := by omega
  have hnd := thePlan_rows_nodup ids B.toNat hb
  have hmain := runUnits_perm_at thr f (thePlan B.toNat (groupIds ids)) hnd l hl k hk i hi
    (markInvalid (groupIds ids).invalid dfEmpty)
  have hdf1 : markInvalid (groupIds ids).invalid dfEmpty i = emptyRow :=
    markInvalid_not_mem _ _ _ (plan_row_not_invalid ids B hB k hk i hi)
  refine ⟨hmain, hdf1, ?_, ?_⟩
  · intro e he
    rw [hmain, he]
    show markErrors thr _ _ i = _
    rw [markErrors_at thr _ _ i (plan_rows_nodup_each _ hnd k hk) hi, hdf1]
    rfl
  · intro res hres j hj1 hj2 hji
    rw [hmain, hres]
    have hjz : j < (((thePlan B.toNat (groupIds ids)).get ⟨k, hk⟩).ids.zip
        ((thePlan B.toNat (groupIds ids)).get ⟨k, hk⟩).rows).length := by
      rw [List.length_zip]
      omega
    have hpair : ((((thePlan B.toNat (groupIds ids)).get ⟨k, hk⟩).ids.get ⟨j, hj1⟩), i) ∈
        ((thePlan B.toNat (groupIds ids)).get ⟨k, hk⟩).ids.zip
          ((thePlan B.toNat (groupIds ids)).get ⟨k, hk⟩).rows := by
      have hg := @List.getElem_zip _ _ ((thePlan B.toNat (groupIds ids)).get ⟨k, hk⟩).ids
        ((thePlan B.toNat (groupIds ids)).get ⟨k, hk⟩).rows j hjz
      refine List.mem_iff_getElem.mpr ⟨j, hjz, ?_⟩
      rw [hg]
      refine Prod.ext ?_ ?_
      · simp [List.get_eq_getElem]
      · rw [← hji]
        simp [List.get_eq_getElem]
    have hsnd := (map_snd_zip_sublist ((thePlan B.toNat (groupIds ids)).get ⟨k, hk⟩).ids
      ((thePlan B.toNat (groupIds ids)).get ⟨k, hk⟩).rows).nodup
      (plan_rows_nodup_each _ hnd k hk)
    show applySuccess res _ _ i = _
    rw [applySuccess_at res _ _ _ i hsnd hpair, hdf1]
theorem claim_c2_witness :
    (runUnits false 1 (fun _ => Except.error ())
        ((thePlan (Int.toNat 1) (groupIds ["rs1".toList, "rs2".toList])).enum.reverse)
        (markInvalid (groupIds ["rs1".toList, "rs2".toList]).invalid dfEmpty)).1 0 =
      ⟨.val 1, .val errorStatus, .null, []⟩ := by
  have h := claim_c2 ["rs1".toList, "rs2".toList] 1 1 (fun _ => .error ()) (by decide)
    ((thePlan (Int.toNat 1) (groupIds ["rs1".toList, "rs2".toList])).enum.reverse)
    (List.reverse_perm _) 0 (by decide) 0 (by decide)
  exact h.2.2.1 () rfl
/-! ## Claim C6: unrecognized tokens are INVALID and never batched -/

theorem mem_enum_get {α : Type} (l : List α) (k : ℕ) (hk : k < l.length) :
    (k, l.get ⟨k, hk⟩) ∈ l.enum := by
  have hk' : k < l.enum.length := by
    rw [List.enum_length]
    exact hk
  have hg := List.getElem_enum l k hk'
  rw [List.get_eq_getElem, ← hg]
  exact List.getElem_mem hk'

theorem enum_mem_snd {α : Type} (d : α) {l : List α} {p : ℕ × α} (h : p ∈ l.enum) :
    p.1 < l.length ∧ p.2 = l.getD p.1 d := by
  have hk : p.1 < l.length := by
    have : p.1 ∈ l.enum.map Prod.fst := List.mem_map_of_mem Prod.fst h
    rw [List.enum_map_fst] at this
    exact List.mem_range.mp this
  refine ⟨hk, ?_⟩
  have h2 : (p.1, l.get ⟨p.1, hk⟩) ∈ l.enum := mem_enum_get l p.1 hk
  have heq := enumFrom_fst_inj (l := l) (i := 0) h h2 rfl
  have hs := congrArg Prod.snd heq
  rw [hs, List.get_eq_getElem, List.getD_eq_getElem l _ hk]

theorem mem_vRows_stdKind (ids : List Str) (idx : ℕ) (h : idx ∈ (groupIds ids).vRows) :
    stdKind (ids.getD idx []) = some .variantID := by
  rw [groupIds, (groupIdsFrom_char ids 0).2.1] at h
  obtain ⟨p, hp, rfl⟩ := List.mem_map.mp h
  obtain ⟨hp1, hp2⟩ := List.mem_filter.mp hp
  obtain ⟨_, hsnd⟩ := enum_mem_snd ([] : Str) hp1
  rw [← hsnd]
  exact beq_iff_eq.mp hp2

theorem mem_rRows_stdKind (ids : List Str) (idx : ℕ) (h : idx ∈ (groupIds ids).rRows) :
    stdKind (ids.getD idx []) = some .rsID := by
  rw [groupIds, (groupIdsFrom_char ids 0).2.2.2.1] at h
  obtain ⟨p, hp, rfl⟩ := List.mem_map.mp h
  obtain ⟨hp1, hp2⟩ := List.mem_filter.mp hp
  obtain ⟨_, hsnd⟩ := enum_mem_snd ([] : Str) hp1
  rw [← hsnd]
  exact beq_iff_eq.mp hp2

theorem invalid_nodup (ids : List Str) : (groupIds ids).invalid.Nodup := by
  rw [groupIds, (groupIdsFrom_char ids 0).2.2.2.2]
  exact filtered_enum_fst_nodup _ _ _

/-- Claim C6: every token matching neither the rsID pattern nor any of the
three delimiter patterns makes normalization fail; its row ends with
`AGVDCUTOFF = INVALID` after all batches are processed (in any completion
order), and the row is excluded from every planned batch. -/
theorem claim_c6 (ids : List Str) (B : ℤ) (thr : ℚ)
    (f : ℕ → Except Unit (List ResultRec)) (l : List (ℕ × QueryUnit)) (idx : ℕ)
    (hB : 1 ≤ B) (hl : l.Perm (thePlan B.toNat (groupIds ids)).enum)
    (hidx : idx < ids.length)
    (h1 : isRsId (pyStrip (ids.getD idx [])) = false)
    (h2 : tryPatterns (removeChr (pyLower (pyStrip (ids.getD idx [])))) = none) :
    standardize_variant_id (ids.getD idx []) =
      .error (unrecognizedMsg (removeChr (pyLower (pyStrip (ids.getD idx []))))) ∧
    idx ∈ (groupIds ids).invalid ∧
    (∀ u ∈ thePlan B.toNat (groupIds ids), idx ∉ u.rows) ∧
    ((runUnits false thr f l (markInvalid (groupIds ids).invalid dfEmpty)).1 idx).agvdcutoff =
      .val invalidStatus := by
  have herr : standardize_variant_id (ids.getD idx []) =
      .error (unrecognizedMsg (removeChr (pyLower (pyStrip (ids.getD idx []))))) := by
    rw [standardize_variant_id]
    simp only [h1, Bool.false_eq_true, if_false, h2]
  have hkind : stdKind (ids.getD idx []) = none := by
    rw [stdKind, herr]
  have hinv : idx ∈ (groupIds ids).invalid := by
    rw [groupIds, (groupIdsFrom_char ids 0).2.2.2.2]
    refine List.mem_map.mpr ⟨(idx, ids.getD idx []), List.mem_filter.mpr ⟨?_, ?_⟩, rfl⟩
    · have hme := mem_enum_get ids idx hidx
      have hgd : ids.get ⟨idx, hidx⟩ = ids.getD idx [] := by
        rw [List.get_eq_getElem, List.getD_eq_getElem ids _ hidx]
      rwa [hgd] at hme
    · show (stdKind (ids.getD idx []) == none) = true
      rw [hkind]
      rfl
  have hexcl : ∀ u ∈ thePlan B.toNat (groupIds ids), idx ∉ u.rows := by
    intro u hu hrow
    have hflat : idx ∈ ((thePlan B.toNat (groupIds ids)).map (fun u => u.rows)).flatten :=
      List.mem_flatten.mpr ⟨u.rows, List.mem_map.mpr ⟨u, hu, rfl⟩, hrow⟩
    rw [thePlan_rows_flatten B.toNat (groupIds ids) (by omega) (vLen_eq ids) (rLen_eq ids)]
      at hflat
    rcases List.mem_append.mp hflat with hv | hr
    · rw [mem_vRows_stdKind ids idx hv] at hkind
      cases hkind
    · rw [mem_rRows_stdKind ids idx hr] at hkind
      cases hkind
  refine ⟨herr, hinv, hexcl, ?_⟩
  have hnorun : ∀ ku ∈ l, idx ∉ ku.2.rows := by
    intro ku hku
    have hku_enum : ku ∈ (thePlan B.toNat (groupIds ids)).enum := hl.mem_iff.mp hku
    obtain ⟨hk', hku2⟩ := mem_enum_eq _ ku hku_enum
    rw [hku2]
    exact hexcl _ (List.get_mem _ ku.1 hk')
  rw [runUnits_not_mem false thr f l _ idx hnorun,
    markInvalid_at _ dfEmpty idx (invalid_nodup ids) hinv]
theorem claim_c6_witness :
    standardize_variant_id ("garbage".toList) =
      .error (unrecognizedMsg (removeChr (pyLower (pyStrip ("garbage".toList))))) ∧
    1 ∈ (groupIds ["rs1".toList, "garbage".toList]).invalid ∧
    (∀ u ∈ thePlan (Int.toNat 5) (groupIds ["rs1".toList, "garbage".toList]), 1 ∉ u.rows) := by
  have h := claim_c6 ["rs1".toList, "garbage".toList] 5 1 (fun _ => .ok [])
    (thePlan (Int.toNat 5) (groupIds ["rs1".toList, "garbage".toList])).enum 1
    (by decide) (List.Perm.refl _) (by decide) (by decide) (by decide)
  exact ⟨h.1, h.2.1, h.2.2.1⟩
/-! ## Claim C10: count accounting -/

theorem groupIdsFrom_lengths (ts : List Str) : ∀ i : ℕ,
    (groupIdsFrom i ts).vRows.length + (groupIdsFrom i ts).rRows.length =
      ts.countP (fun t => (standardize_variant_id t).isOk) ∧
    (groupIdsFrom i ts).vRows.length + (groupIdsFrom i ts).rRows.length +
      (groupIdsFrom i ts).invalid.length = ts.length := by
  induction ts with
  | nil => intro i; simp [groupIdsFrom]
  | cons t ts ih =>
    intro i
    obtain ⟨ih1, ih2⟩ := ih (i + 1)
    rw [List.countP_cons, List.length_cons]
    cases hstd : standardize_variant_id t with
    | ok sk =>
      obtain ⟨s, k⟩ := sk
      have hif : (if (Except.ok (s, k) : Except Str (Str × IdKind)).isOk = true
          then 1 else 0) = 1 := rfl
      rw [hif]
      cases k <;> constructor <;>
        simp only [groupIdsFrom, hstd, List.length_cons] <;> omega
    | error e =>
      have hif : (if (Except.error e : Except Str (Str × IdKind)).isOk = true
          then 1 else 0) = 0 := rfl
      rw [hif]
      constructor <;>
        simp only [groupIdsFrom, hstd, List.length_cons] <;> omega

theorem runUnits_counts (thr : ℚ) (f : ℕ → Except Unit (List ResultRec)) :
    ∀ (l : List (ℕ × QueryUnit)) (df : Df),
    (∀ ku ∈ l, ku.2.ids.length = ku.2.rows.length) →
    (runUnits false thr f l df).2.1 + (runUnits false thr f l df).2.2 =
      (l.map (fun ku => ku.2.rows.length)).sum := by
  intro l
  induction l with
  | nil => intro df _; rfl
  | cons ku l ih =>
    intro df h
    rw [runUnits_cons]
    simp only [List.map_cons, List.sum_cons]
    have hrest := ih (process_batch false thr ku.2 (f ku.1) df).1
      (fun q hq => h q (by simp [hq]))
    have hunit : (process_batch false thr ku.2 (f ku.1) df).2.1 +
        (process_batch false thr ku.2 (f ku.1) df).2.2 = ku.2.rows.length := by
      cases hf : f ku.1 with
      | ok res =>
        show (ku.2.ids.zip ku.2.rows).length + 0 = ku.2.rows.length
        rw [List.length_zip, h ku (by simp)]
        omega
      | error e =>
        show 0 + ku.2.rows.length = ku.2.rows.length
        omega
    omega

/-- Claim C10: for every non-dry run (in any completion order), the
aggregate success count plus failure count equals the number of input rows
whose identifier normalized successfully; rows marked `INVALID` are
counted in neither, and successes plus failures plus invalid rows equal
the summary's total, which is the full row count. -/
theorem claim_c10 (ids : List Str) (B : ℤ) (thr : ℚ)
    (f : ℕ → Except Unit (List ResultRec)) (l : List (ℕ × QueryUnit))
    (hB : 1 ≤ B) (hl : l.Perm (thePlan B.toNat (groupIds ids)).enum) :
    (runUnits false thr f l (markInvalid (groupIds ids).invalid dfEmpty)).2.1 +
      (runUnits false thr f l (markInvalid (groupIds ids).invalid dfEmpty)).2.2 =
      ids.countP (fun t => (standardize_variant_id t).isOk) ∧
    (runUnits false thr f l (markInvalid (groupIds ids).invalid dfEmpty)).2.1 +
      (runUnits false thr f l (markInvalid (groupIds ids).invalid dfEmpty)).2.2 +
      (groupIds ids).invalid.length = ids.length ∧
    (generate_summary ids.length
      (runUnits false thr f l (markInvalid (groupIds ids).invalid dfEmpty)).2.1
      (runUnits false thr f l (markInvalid (groupIds ids).invalid dfEmpty)).2.2).total =
      ids.length ∧
    (generate_summary ids.length
      (runUnits false thr f l (markInvalid (groupIds ids).invalid dfEmpty)).2.1
      (runUnits false thr f l (markInvalid (groupIds ids).invalid dfEmpty)).2.2).successful =
      (runUnits false thr f l (markInvalid (groupIds ids).invalid dfEmpty)).2.1 ∧
    (generate_summary ids.length
      (runUnits false thr f l (markInvalid (groupIds ids).invalid dfEmpty)).2.1
      (runUnits false thr f l (markInvalid (groupIds ids).invalid dfEmpty)).2.2).failed =
      (runUnits false thr f l (markInvalid (groupIds ids).invalid dfEmpty)).2.2 := by
  have hb : 1 ≤ B.toNat := by omega
  have hlen_plan : ∀ ku ∈ l, ku.2.ids.length = ku.2.rows.length := by
    intro ku hku
    obtain ⟨hk', hku2⟩ := mem_enum_eq _ ku (hl.mem_iff.mp hku)
    rw [hku2]
    exact (thePlan_mem_len B.toNat (groupIds ids) hb (vLen_eq ids) (rLen_eq ids) _
      (List.get_mem _ ku.1 hk')).1
  have hsum : (l.map (fun ku => ku.2.rows.length)).sum =
      (groupIds ids).vRows.length + (groupIds ids).rRows.length := by
    rw [(hl.map (fun ku => ku.2.rows.length)).sum_eq]
    have hcomp : (thePlan B.toNat (groupIds ids)).enum.map (fun ku => ku.2.rows.length) =
        (thePlan B.toNat (groupIds ids)).map (fun u => u.rows.length) := by
      rw [show (fun ku : ℕ × QueryUnit => ku.2.rows.length) =
        (fun u : QueryUnit => u.rows.length) ∘ Prod.snd from rfl]
      rw [← List.map_map, List.enum_map_snd]
    rw [hcomp]
    have hflatlen : ((thePlan B.toNat (groupIds ids)).map (fun u => u.rows)).flatten.length =
        ((thePlan B.toNat (groupIds ids)).map (fun u => u.rows.length)).sum := by
      rw [List.length_flatten, List.map_map]
      rfl
    rw [← hflatlen, thePlan_rows_flatten B.toNat (groupIds ids) hb (vLen_eq ids) (rLen_eq ids)]
    rw [List.length_append]
  have hcounts := runUnits_counts thr f l (markInvalid (groupIds ids).invalid dfEmpty) hlen_plan
  have hg1 := (groupIdsFrom_lengths ids 0).1
  have hg2 := (groupIdsFrom_lengths ids 0).2
  rw [hcounts, hsum]
  refine ⟨?_, ?_, rfl, rfl, rfl⟩
  · exact hg1
  · exact hg2

theorem claim_c10_witness :
    (runUnits false 1 (fun k => if k = 0 then .error () else .ok [])
        ((thePlan (Int.toNat 2) (groupIds
          ["rs1".toList, "bad".toList, "1:2:a:t".toList])).enum.reverse)
        (markInvalid (groupIds ["rs1".toList, "bad".toList, "1:2:a:t".toList]).invalid
          dfEmpty)).2.1 +
      (runUnits false 1 (fun k => if k = 0 then .error () else .ok [])
        ((thePlan (Int.toNat 2) (groupIds
          ["rs1".toList, "bad".toList, "1:2:a:t".toList])).enum.reverse)
        (markInvalid (groupIds ["rs1".toList, "bad".toList, "1:2:a:t".toList]).invalid
          dfEmpty)).2.2 +
      (groupIds ["rs1".toList, "bad".toList, "1:2:a:t".toList]).invalid.length = 3 :=
  (claim_c10 ["rs1".toList, "bad".toList, "1:2:a:t".toList] 2 1
    (fun k => if k = 0 then .error () else .ok []) _ (by decide)
    (List.reverse_perm _)).2.1
/-! ## Claim C4: character-class facts -/

def sepChars : Str := ['_', '|', ':', '-', '>']

theorem wchar_toLower {x : Char} (h : wchar x = true) : wchar x.toLower = true :=
  (by decide : ∀ y ∈ wordChars, wchar y.toLower = true) x (wchar_mem h)

theorem sepAny_toLower_w {x : Char} (hw : wchar x = true) : sepAny x.toLower = sepAny x :=
  (by decide : ∀ y ∈ wordChars, sepAny y.toLower = sepAny y) x (wchar_mem hw)

theorem toUpper_toLower {x : Char} (h : wchar x = true) : x.toLower.toUpper = x.toUpper :=
  (by decide : ∀ y ∈ wordChars, y.toLower.toUpper = y.toUpper) x (wchar_mem h)

theorem dchar_toLower {x : Char} (h : dchar x = true) : x.toLower = x :=
  (by decide : ∀ y ∈ digitChars, y.toLower = y) x (dchar_mem h)

theorem dchar_sepAny {x : Char} (h : dchar x = true) : sepAny x = false :=
  (by decide : ∀ y ∈ digitChars, sepAny y = false) x (dchar_mem h)

theorem dchar_wchar {x : Char} (h : dchar x = true) : wchar x = true :=
  (by decide : ∀ y ∈ digitChars, wchar y = true) x (dchar_mem h)

theorem sepAny_dchar {d : Char} (h : sepAny d = true) : dchar d = false :=
  (by decide : ∀ y ∈ sepChars, dchar y = false) d (sepAny_mem h)

theorem sepAny_toLower_self {d : Char} (h : sepAny d = true) : d.toLower = d :=
  (by decide : ∀ y ∈ sepChars, y.toLower = y) d (sepAny_mem h)

theorem sepAny_not_s {d : Char} (h : sepAny d = true) : (d == 's' || d == 'S') = false :=
  (by decide : ∀ y ∈ sepChars, (y == 's' || y == 'S') = false) d (sepAny_mem h)

theorem sepAny_wchar {d : Char} (h : sepAny d = true) : wchar d = (d == '_') :=
  (by decide : ∀ y ∈ sepChars, wchar y = (y == '_')) d (sepAny_mem h)

/-! ## Claim C4: generic matcher lemmas -/

theorem firstSome_cons_some {f : α → Option β} {x : α} {xs : List α} {b : β}
    (h : f x = some b) : firstSome f (x :: xs) = some b := by
  simp [firstSome, h]

theorem firstSome_cons_none {f : α → Option β} {x : α} {xs : List α}
    (h : f x = none) : firstSome f (x :: xs) = firstSome f xs := by
  simp [firstSome, h]

theorem firstSome_eq_none {f : α → Option β} :
    ∀ {l : List α}, (∀ x ∈ l, f x = none) → firstSome f l = none := by
  intro l
  induction l with
  | nil => intro _; rfl
  | cons x xs ih =>
    intro h
    rw [firstSome_cons_none (h x (by simp))]
    exact ih (fun y hy => h y (by simp [hy]))

theorem mem_splitsDesc {l : Str} :
    ∀ {K : ℕ} {pair : Str × Str}, pair ∈ splitsDesc l K →
    ∃ k, 1 ≤ k ∧ k ≤ K ∧ pair = (l.take k, l.drop k) := by
  intro K
  induction K with
  | zero => intro pair h; simp [splitsDesc] at h
  | succ n ih =>
    intro pair h
    rcases List.mem_cons.mp h with rfl | h
    · exact ⟨n + 1, by omega, le_refl _, rfl⟩
    · obtain ⟨k, h1, h2, h3⟩ := ih h
      exact ⟨k, h1, by omega, h3⟩

theorem splitsDesc_succ (l : Str) (k : ℕ) :
    splitsDesc l (k + 1) = (l.take (k + 1), l.drop (k + 1)) :: splitsDesc l k := rfl

theorem firstSome_splitsDesc_descend {f : Str × Str → Option β} {l : Str} :
    ∀ (K k0 : ℕ), k0 ≤ K →
    (∀ k, k0 < k → k ≤ K → f (l.take k, l.drop k) = none) →
    firstSome f (splitsDesc l K) = firstSome f (splitsDesc l k0) := by
  intro K
  induction K with
  | zero =>
    intro k0 h _
    rw [Nat.le_zero.mp h]
  | succ n ih =>
    intro k0 h hdead
    rcases Nat.lt_or_ge k0 (n + 1) with hlt | hge
    · rw [splitsDesc_succ, firstSome_cons_none (hdead (n + 1) hlt (le_refl _))]
      exact ih k0 (by omega) (fun k hk1 hk2 => hdead k hk1 (by omega))
    · have : k0 = n + 1 := by omega
      rw [this]

theorem takeWhile_all_append {pcls : Char → Bool} {u : Str} (v : Str)
    (h : ∀ x ∈ u, pcls x = true) : (u ++ v).takeWhile pcls = u ++ v.takeWhile pcls := by
  induction u with
  | nil => rfl
  | cons x xs ih =>
    simp only [List.cons_append, List.takeWhile_cons, h x (by simp)]
    rw [ih (fun y hy => h y (by simp [hy]))]
    simp

theorem takeWhile_all {pcls : Char → Bool} {u : Str} (h : ∀ x ∈ u, pcls x = true) :
    u.takeWhile pcls = u := by
  have h2 := takeWhile_all_append (u := u) [] h
  rw [List.append_nil] at h2
  rw [h2, List.takeWhile_nil, List.append_nil]

theorem takeWhile_cons_false {pcls : Char → Bool} {x : Char} (v : Str)
    (h : pcls x = false) : (x :: v).takeWhile pcls = [] := by
  simp [List.takeWhile_cons, h]

theorem takeWhile_len_le_stop {pcls : Char → Bool} (u : Str) (x : Char) (v : Str)
    (h : pcls x = false) : ((u ++ x :: v).takeWhile pcls).length ≤ u.length := by
  induction u with
  | nil =>
    rw [List.nil_append, takeWhile_cons_false v h]
  | cons y ys ih =>
    rw [List.cons_append, List.takeWhile_cons]
    cases hy : pcls y
    · simp
    · simpa using ih

theorem matchSep_drop_none {scls : Char → Bool} {v : Str}
    (h : ∀ x ∈ v, scls x = false) : ∀ m, matchSep scls (v.drop m) = none := by
  intro m
  rcases Nat.lt_or_ge m v.length with hm | hm
  · rw [List.drop_eq_getElem_cons hm]
    show (if scls v[m] = true then some _ else none) = none
    rw [h v[m] (List.getElem_mem hm)]
    rfl
  · rw [List.drop_eq_nil_of_le hm]
    rfl
theorem takeWhile_len_le (pcls : Char → Bool) (u : Str) :
    (u.takeWhile pcls).length ≤ u.length := by
  induction u with
  | nil => simp
  | cons y ys ih =>
    rw [List.takeWhile_cons]
    cases hy : pcls y
    · simp
    · simpa using ih

/-! ## Claim C4: level lemmas for the backtracking matcher -/

theorem altLevel_success (acc : Str × Str × Str) (a : Str) (ha : a ≠ [])
    (haw : ∀ x ∈ a, wchar x = true) :
    altLevel acc a = some (acc.1, acc.2.1, acc.2.2, a) := by
  obtain ⟨y, ys, rfl⟩ := List.exists_cons_of_ne_nil ha
  rw [altLevel, plusSplits, takeWhile_all haw]
  have hlen : (y :: ys).length = ys.length + 1 := rfl
  rw [hlen, splitsDesc_succ, ← hlen, List.take_length]
  exact firstSome_cons_some rfl

theorem refLevel_none_field (scls : Char → Bool) (acc : Str × Str) (a : Str)
    (h : ∀ x ∈ a, scls x = false) : refLevel scls acc a = none := by
  rw [refLevel]
  refine firstSome_eq_none ?_
  intro pair hpair
  obtain ⟨k, hk1, hk2, rfl⟩ := mem_splitsDesc hpair
  rw [matchSep_drop_none h k]
  rfl

theorem posLevel_none_field (s2 s3 : Char → Bool) (acc : Str) (a : Str)
    (h : ∀ x ∈ a, s2 x = false) : posLevel s2 s3 acc a = none := by
  rw [posLevel]
  refine firstSome_eq_none ?_
  intro pair hpair
  obtain ⟨k, hk1, hk2, rfl⟩ := mem_splitsDesc hpair
  rw [matchSep_drop_none h k]
  rfl

theorem posLevel_none_rd3a (acc : Str) (r : Str) (d3 : Char) (a : Str)
    (hrs : ∀ x ∈ r, sepAny x = false) (hd3 : sepAny d3 = true)
    (has : ∀ x ∈ a, sepAny x = false) :
    posLevel sepAny sepAny acc (r ++ d3 :: a) = none := by
  rw [posLevel]
  refine firstSome_eq_none ?_
  intro pair hpair
  obtain ⟨k, hk1, hk2, rfl⟩ := mem_splitsDesc hpair
  have hK : ((r ++ d3 :: a).takeWhile dchar).length ≤ r.length :=
    takeWhile_len_le_stop r d3 a (sepAny_dchar hd3)
  have hkr : k ≤ r.length := le_trans hk2 hK
  rcases Nat.lt_or_ge k r.length with hlt | hge
  · rw [List.drop_append_of_le_length (by omega), List.drop_eq_getElem_cons hlt]
    show ((if sepAny r[k] = true then some _ else none).bind _) = none
    rw [hrs r[k] (List.getElem_mem hlt)]
    rfl
  · have hkeq : k = r.length := by omega
    rw [hkeq, List.drop_left]
    show ((if sepAny d3 = true then some _ else none).bind _) = none
    rw [hd3]
    show refLevel sepAny _ a = none
    exact refLevel_none_field sepAny _ a has
theorem firstSome_splitsDesc_head {f : Str × Str → Option β} {l : Str} {k : ℕ} {b : β}
    (hk : 1 ≤ k) (h : f (l.take k, l.drop k) = some b) :
    firstSome f (splitsDesc l k) = some b := by
  obtain ⟨m, rfl⟩ : ∃ m, k = m + 1 := ⟨k - 1, by omega⟩
  rw [splitsDesc_succ]
  exact firstSome_cons_some h

/-- Any candidate for the `chr` group that extends past the chromosome
field leads to a dead end: the remaining input after the separator it
consumes cannot complete `pos sep ref sep alt`. -/
theorem chr_dead_tail (acc : Str) (p : Str) (d2 : Char) (r : Str) (d3 : Char) (a : Str)
    (hpd : ∀ x ∈ p, dchar x = true) (hd2 : sepAny d2 = true)
    (hrs : ∀ x ∈ r, sepAny x = false) (hd3 : sepAny d3 = true)
    (has : ∀ x ∈ a, sepAny x = false) (j : ℕ) :
    (matchSep sepAny ((p ++ d2 :: (r ++ d3 :: a)).drop j)).bind
      (posLevel sepAny sepAny acc) = none := by
  rcases Nat.lt_or_ge j p.length with hj | hj
  · rw [List.drop_append_of_le_length (by omega), List.drop_eq_getElem_cons hj,
      List.cons_append]
    show ((if sepAny p[j] = true then some _ else none).bind _) = none
    rw [dchar_sepAny (hpd p[j] (List.getElem_mem hj))]
    rfl
  · rcases Nat.eq_or_lt_of_le hj with hjeq | hjgt
    · rw [← hjeq, List.drop_left]
      show ((if sepAny d2 = true then some _ else none).bind _) = none
      rw [hd2]
      show posLevel sepAny sepAny acc (r ++ d3 :: a) = none
      exact posLevel_none_rd3a acc r d3 a hrs hd3 has
    · have hm : j = p.length + ((j - p.length - 1) + 1) := by omega
      rw [hm, List.drop_append, List.drop_succ_cons]
      generalize j - p.length - 1 = m
      rcases Nat.lt_or_ge m r.length with hmr | hmr
      · rw [List.drop_append_of_le_length (by omega), List.drop_eq_getElem_cons hmr,
          List.cons_append]
        show ((if sepAny r[m] = true then some _ else none).bind _) = none
        rw [hrs r[m] (List.getElem_mem hmr)]
        rfl
      · rcases Nat.eq_or_lt_of_le hmr with hmeq | hmgt
        · rw [← hmeq, List.drop_left]
          show ((if sepAny d3 = true then some _ else none).bind _) = none
          rw [hd3]
          show posLevel sepAny sepAny acc a = none
          exact posLevel_none_field sepAny sepAny acc a has
        · have hm2 : m = r.length + ((m - r.length - 1) + 1) := by omega
          rw [hm2, List.drop_append, List.drop_succ_cons]
          rw [matchSep_drop_none has (m - r.length - 1)]
          rfl

theorem refLevel_success (acc : Str × Str) (r : Str) (d3 : Char) (a : Str)
    (hrne : r ≠ []) (hrw : ∀ x ∈ r, wchar x = true)
    (hd3 : sepAny d3 = true) (hane : a ≠ []) (haw : ∀ x ∈ a, wchar x = true)
    (has : ∀ x ∈ a, sepAny x = false) :
    refLevel sepAny acc (r ++ d3 :: a) = some (acc.1, acc.2, r, a) := by
  have hrlen : 1 ≤ r.length := by
    cases r
    · exact absurd rfl hrne
    · simp
  have hhead : (fun pr => (matchSep sepAny pr.2).bind (altLevel (acc.1, acc.2, pr.1)))
      ((r ++ d3 :: a).take r.length, (r ++ d3 :: a).drop r.length) =
      some (acc.1, acc.2, r, a) := by
    rw [List.take_left, List.drop_left]
    show ((if sepAny d3 = true then some a else none).bind _) = _
    rw [hd3]
    show altLevel (acc.1, acc.2, r) a = _
    rw [altLevel_success _ a hane haw]
  rw [refLevel]
  cases hw3 : wchar d3
  · rw [plusSplits, takeWhile_all_append _ hrw, takeWhile_cons_false _ hw3, List.append_nil]
    exact firstSome_splitsDesc_head hrlen hhead
  · have htw : (r ++ d3 :: a).takeWhile wchar = r ++ d3 :: a := by
      rw [takeWhile_all_append _ hrw, List.takeWhile_cons, hw3]
      simp only [if_true]
      rw [takeWhile_all haw]
    rw [plusSplits, htw]
    have hdesc := firstSome_splitsDesc_descend
      (f := fun pr => (matchSep sepAny pr.2).bind (altLevel (acc.1, acc.2, pr.1)))
      (l := r ++ d3 :: a) (r ++ d3 :: a).length r.length (by simp) ?dead
    · rw [hdesc]
      exact firstSome_splitsDesc_head hrlen hhead
    case dead =>
      intro k hk1 hk2
      have hkm : k = r.length + ((k - r.length - 1) + 1) := by omega
      rw [hkm, List.drop_append, List.drop_succ_cons]
      show (matchSep sepAny (a.drop (k - r.length - 1))).bind _ = none
      rw [matchSep_drop_none has (k - r.length - 1)]
      rfl

theorem posLevel_success (acc : Str) (p : Str) (d2 : Char) (r : Str) (d3 : Char) (a : Str)
    (hpne : p ≠ []) (hpd : ∀ x ∈ p, dchar x = true) (hd2 : sepAny d2 = true)
    (hrne : r ≠ []) (hrw : ∀ x ∈ r, wchar x = true)
    (hd3 : sepAny d3 = true) (hane : a ≠ []) (haw : ∀ x ∈ a, wchar x = true)
    (has : ∀ x ∈ a, sepAny x = false) :
    posLevel sepAny sepAny acc (p ++ d2 :: (r ++ d3 :: a)) = some (acc, p, r, a) := by
  have hplen : 1 ≤ p.length := by
    cases p
    · exact absurd rfl hpne
    · simp
  rw [posLevel, plusSplits, takeWhile_all_append _ hpd,
    takeWhile_cons_false _ (sepAny_dchar hd2), List.append_nil]
  refine firstSome_splitsDesc_head hplen ?_
  rw [List.take_left, List.drop_left]
  show ((if sepAny d2 = true then some _ else none).bind _) = _
  rw [hd2]
  show refLevel sepAny (acc, p) (r ++ d3 :: a) = _
  rw [refLevel_success (acc, p) r d3 a hrne hrw hd3 hane haw has]

/-- The first pattern matches a well-formed four-field token and captures
exactly the four fields. -/
theorem match4_wf (c p r a : Str) (d1 d2 d3 : Char)
    (hcne : c ≠ []) (hcw : ∀ x ∈ c, wchar x = true) (hcs : ∀ x ∈ c, sepAny x = false)
    (hpne : p ≠ []) (hpd : ∀ x ∈ p, dchar x = true)
    (hrne : r ≠ []) (hrw : ∀ x ∈ r, wchar x = true) (hrs : ∀ x ∈ r, sepAny x = false)
    (hane : a ≠ []) (haw : ∀ x ∈ a, wchar x = true) (has : ∀ x ∈ a, sepAny x = false)
    (hd1 : sepAny d1 = true) (hd2 : sepAny d2 = true) (hd3 : sepAny d3 = true) :
    match4 sepAny sepAny sepAny (c ++ d1 :: (p ++ d2 :: (r ++ d3 :: a))) =
      some (c, p, r, a) := by
  have hclen : 1 ≤ c.length := by
    cases c
    · exact absurd rfl hcne
    · simp
  have hhead : (fun pc => (matchSep sepAny pc.2).bind (posLevel sepAny sepAny pc.1))
      ((c ++ d1 :: (p ++ d2 :: (r ++ d3 :: a))).take c.length,
       (c ++ d1 :: (p ++ d2 :: (r ++ d3 :: a))).drop c.length) = some (c, p, r, a) := by
    rw [List.take_left, List.drop_left]
    show ((if sepAny d1 = true then some _ else none).bind _) = _
    rw [hd1]
    show posLevel sepAny sepAny c (p ++ d2 :: (r ++ d3 :: a)) = _
    exact posLevel_success c p d2 r d3 a hpne hpd hd2 hrne hrw hd3 hane haw has
  rw [match4]
  cases hw1 : wchar d1
  · rw [plusSplits, takeWhile_all_append _ hcw, takeWhile_cons_false _ hw1, List.append_nil]
    exact firstSome_splitsDesc_head hclen hhead
  · have htw : (c ++ d1 :: (p ++ d2 :: (r ++ d3 :: a))).takeWhile wchar =
        c ++ d1 :: (p ++ d2 :: (r ++ d3 :: a)).takeWhile wchar := by
      rw [takeWhile_all_append _ hcw, List.takeWhile_cons, hw1]
      simp only [if_true]
    rw [plusSplits, htw]
    have hdesc := firstSome_splitsDesc_descend
      (f := fun pc => (matchSep sepAny pc.2).bind (posLevel sepAny sepAny pc.1))
      (l := c ++ d1 :: (p ++ d2 :: (r ++ d3 :: a)))
      (c ++ d1 :: (p ++ d2 :: (r ++ d3 :: a)).takeWhile wchar).length
      c.length (by simp) ?dead
    · rw [hdesc]
      exact firstSome_splitsDesc_head hclen hhead
    case dead =>
      intro k hk1 hk2
      have hkm : k = c.length + ((k - c.length - 1) + 1) := by omega
      rw [hkm, List.drop_append, List.drop_succ_cons]
      exact chr_dead_tail _ p d2 r d3 a hpd hd2 hrs hd3 has (k - c.length - 1)
/-! ## Claim C4: assembling the normalizer result -/

/-- The eight casings of the `chr` prefix. -/
def chrCasings : List Str :=
  [['c', 'h', 'r'], ['c', 'h', 'R'], ['c', 'H', 'r'], ['c', 'H', 'R'],
   ['C', 'h', 'r'], ['C', 'h', 'R'], ['C', 'H', 'r'], ['C', 'H', 'R']]

theorem map_self_of {f : Char → Char} :
    ∀ {l : Str}, (∀ x ∈ l, f x = x) → l.map f = l := by
  intro l
  induction l with
  | nil => intro _; rfl
  | cons x xs ih =>
    intro h
    rw [List.map_cons, h x (by simp), ih (fun y hy => h y (by simp [hy]))]
/-- Claim C4: every well-formed delimited variant token — optional
whitespace, an optional `chr` prefix in any casing, then four fields
(word-character chromosome, digit position, word-character ref and alt,
none containing a separator character and the lower-cased body containing
no `chr` occurrence) joined by separators from the pattern class — is
normalized by stripping the whitespace, stripping the `chr` prefix
case-insensitively, matching the delimiter patterns, and returning the
upper-cased canonical `CHR_POS_REF_ALT` with kind `variantID`. -/
theorem claim_c4 (ws1 ws2 pre c p r a : Str) (d1 d2 d3 : Char)
    (hws1 : ∀ x ∈ ws1, pySpace x = true) (hws2 : ∀ x ∈ ws2, pySpace x = true)
    (hpre : pre = [] ∨ pre ∈ chrCasings)
    (hcne : c ≠ []) (hcw : ∀ x ∈ c, wchar x = true) (hcs : ∀ x ∈ c, sepAny x = false)
    (hpne : p ≠ []) (hpd : ∀ x ∈ p, dchar x = true)
    (hrne : r ≠ []) (hrw : ∀ x ∈ r, wchar x = true) (hrs : ∀ x ∈ r, sepAny x = false)
    (hane : a ≠ []) (haw : ∀ x ∈ a, wchar x = true) (has : ∀ x ∈ a, sepAny x = false)
    (hd1 : sepAny d1 = true) (hd2 : sepAny d2 = true) (hd3 : sepAny d3 = true)
    (hnochr : removeChr (pyLower (c ++ d1 :: (p ++ d2 :: (r ++ d3 :: a)))) =
      pyLower (c ++ d1 :: (p ++ d2 :: (r ++ d3 :: a)))) :
    standardize_variant_id
        (ws1 ++ (pre ++ (c ++ d1 :: (p ++ d2 :: (r ++ d3 :: a)))) ++ ws2) =
      .ok (pyUpper (c ++ '_' :: p ++ '_' :: r ++ '_' :: a), .variantID) := by
  have hcorens : ∀ x ∈ c ++ d1 :: (p ++ d2 :: (r ++ d3 :: a)), pySpace x = false := by
    intro x hx
    simp only [List.mem_append, List.mem_cons] at hx
    rcases hx with hx | rfl | hx | rfl | hx | rfl | hx
    · exact wchar_not_space (hcw x hx)
    · exact sepAny_not_space hd1
    · exact dchar_not_space (hpd x hx)
    · exact sepAny_not_space hd2
    · exact wchar_not_space (hrw x hx)
    · exact sepAny_not_space hd3
    · exact wchar_not_space (haw x hx)
  have hbodyns : ∀ x ∈ pre ++ (c ++ d1 :: (p ++ d2 :: (r ++ d3 :: a))), pySpace x = false := by
    intro x hx
    rcases List.mem_append.mp hx with hx | hx
    · rcases hpre with rfl | hq
      · simp at hx
      · exact (by decide : ∀ q ∈ chrCasings, ∀ x ∈ q, pySpace x = false) pre hq x hx
    · exact hcorens x hx
  have hbodyne : pre ++ (c ++ d1 :: (p ++ d2 :: (r ++ d3 :: a))) ≠ [] := by
    simp [hcne]
  have hstrip := pyStrip_spec ws1 ws2 _ hws1 hws2 hbodyne hbodyns
  have hrsid : isRsId (pre ++ (c ++ d1 :: (p ++ d2 :: (r ++ d3 :: a)))) = false := by
    rcases hpre with rfl | hq
    · rw [List.nil_append]
      obtain ⟨c0, ctail, rfl⟩ := List.exists_cons_of_ne_nil hcne
      cases ctail with
      | nil =>
        rw [List.cons_append, List.nil_append]
        simp [isRsId, sepAny_not_s hd1]
      | cons c1 c2s =>
        rw [List.cons_append, List.cons_append]
        simp [isRsId, List.all_append, sepAny_dchar hd1]
    · fin_cases hq <;> rfl
  -- the lowered fields
  have hlp : pyLower p = p := map_self_of (fun x hx => dchar_toLower (hpd x hx))
  have hlowcore : pyLower (c ++ d1 :: (p ++ d2 :: (r ++ d3 :: a))) =
      pyLower c ++ d1 :: (p ++ d2 :: (pyLower r ++ d3 :: pyLower a)) := by
    simp only [pyLower, List.map_append, List.map_cons]
    rw [sepAny_toLower_self hd1, sepAny_toLower_self hd2, sepAny_toLower_self hd3]
    rw [show List.map Char.toLower p = p from hlp]
  have hrem : removeChr (pyLower (pre ++ (c ++ d1 :: (p ++ d2 :: (r ++ d3 :: a))))) =
      pyLower c ++ d1 :: (p ++ d2 :: (pyLower r ++ d3 :: pyLower a)) := by
    rcases hpre with rfl | hq
    · rw [List.nil_append, ← hlowcore]
      exact hnochr
    · have hlq : pyLower pre = ['c', 'h', 'r'] :=
        (by decide : ∀ q ∈ chrCasings, pyLower q = ['c', 'h', 'r']) pre hq
      rw [pyLower, List.map_append, ← pyLower, ← pyLower, hlq]
      rw [show (['c', 'h', 'r'] : Str) ++
        pyLower (c ++ d1 :: (p ++ d2 :: (r ++ d3 :: a))) =
        'c' :: 'h' :: 'r' :: pyLower (c ++ d1 :: (p ++ d2 :: (r ++ d3 :: a))) from rfl]
      rw [show removeChr ('c' :: 'h' :: 'r' ::
        pyLower (c ++ d1 :: (p ++ d2 :: (r ++ d3 :: a)))) =
        removeChr (pyLower (c ++ d1 :: (p ++ d2 :: (r ++ d3 :: a)))) from rfl]
      rw [hnochr, hlowcore]
  have hmatch : match4 sepAny sepAny sepAny
      (pyLower c ++ d1 :: (p ++ d2 :: (pyLower r ++ d3 :: pyLower a))) =
      some (pyLower c, p, pyLower r, pyLower a) := by
    refine match4_wf (pyLower c) p (pyLower r) (pyLower a) d1 d2 d3 ?_ ?_ ?_ hpne hpd
      ?_ ?_ ?_ ?_ ?_ ?_ hd1 hd2 hd3
    · simp [pyLower, List.map_eq_nil_iff, hcne]
    · intro x hx
      obtain ⟨y, hy, rfl⟩ := List.mem_map.mp hx
      exact wchar_toLower (hcw y hy)
    · intro x hx
      obtain ⟨y, hy, rfl⟩ := List.mem_map.mp hx
      rw [sepAny_toLower_w (hcw y hy)]
      exact hcs y hy
    · simp [pyLower, List.map_eq_nil_iff, hrne]
    · intro x hx
      obtain ⟨y, hy, rfl⟩ := List.mem_map.mp hx
      exact wchar_toLower (hrw y hy)
    · intro x hx
      obtain ⟨y, hy, rfl⟩ := List.mem_map.mp hx
      rw [sepAny_toLower_w (hrw y hy)]
      exact hrs y hy
    · simp [pyLower, List.map_eq_nil_iff, hane]
    · intro x hx
      obtain ⟨y, hy, rfl⟩ := List.mem_map.mp hx
      exact wchar_toLower (haw y hy)
    · intro x hx
      obtain ⟨y, hy, rfl⟩ := List.mem_map.mp hx
      rw [sepAny_toLower_w (haw y hy)]
      exact has y hy
  have htryp : tryPatterns
      (pyLower c ++ d1 :: (p ++ d2 :: (pyLower r ++ d3 :: pyLower a))) =
      some (pyLower c, p, pyLower r, pyLower a) := by
    rw [tryPatterns, hmatch]
  have hcu : (pyLower c).map Char.toUpper = c.map Char.toUpper := by
    rw [pyLower, List.map_map]
    exact List.map_congr_left (fun x hx => toUpper_toLower (hcw x hx))
  have hru : (pyLower r).map Char.toUpper = r.map Char.toUpper := by
    rw [pyLower, List.map_map]
    exact List.map_congr_left (fun x hx => toUpper_toLower (hrw x hx))
  have hau : (pyLower a).map Char.toUpper = a.map Char.toUpper := by
    rw [pyLower, List.map_map]
    exact List.map_congr_left (fun x hx => toUpper_toLower (haw x hx))
  have hupper : pyUpper (pyLower c ++ '_' :: p ++ '_' :: pyLower r ++ '_' :: pyLower a) =
      pyUpper (c ++ '_' :: p ++ '_' :: r ++ '_' :: a) := by
    simp only [pyUpper, List.map_append, List.map_cons]
    rw [hcu, hru, hau]
  unfold standardize_variant_id
  rw [hstrip]
  simp only [hrsid, Bool.false_eq_true, if_false, hrem, htryp, hupper]
theorem claim_c4_witness :
    standardize_variant_id "chr19:7177679:C>T".toList =
      .ok ("19_7177679_C_T".toList, .variantID) := by
  have h := claim_c4 [] [] "chr".toList "19".toList "7177679".toList "C".toList "T".toList
    ':' ':' '>' (by decide) (by decide) (Or.inr (by decide)) (by decide) (by decide)
    (by decide) (by decide) (by decide) (by decide) (by decide) (by decide) (by decide)
    (by decide) (by decide) (by decide) (by decide) (by decide) (by decide)
  have e1 : ([] : Str) ++ ("chr".toList ++ ("19".toList ++ ':' ::
      ("7177679".toList ++ ':' :: ("C".toList ++ '>' :: "T".toList)))) ++ ([] : Str) =
      "chr19:7177679:C>T".toList := by decide
  have e2 : pyUpper ("19".toList ++ '_' :: "7177679".toList ++ '_' ::
      "C".toList ++ '_' :: "T".toList) = "19_7177679_C_T".toList := by decide
  rw [e1, e2] at h
  exact h
